import Mathlib

/-!
# Verification of the jsona parser and DOM core

A shallow embedding of the JSONA parser (`crates/jsona/src/parser.rs`) and the
DOM node layer (`crates/jsona/src/dom/node.rs`) of the `dalisoft/jsona`
repository, together with proofs about its stated invariants.

Source text is modelled as `List Char` (Rust iterates `char`s; the offsets we
track are therefore scalar-value offsets, which agree with the code's usage of
`chars().enumerate()` indices in error reporting).

The lexer (`crates/jsona/src/lexer.rs`) and the escape checker
(`crates/jsona/src/util/escape.rs`) are not part of the provided sources and
are modelled from the specification where needed; each such definition is
marked `Modelled from the spec:` in its doc comment.
-/

/-- Token kinds, from the `SyntaxKind` set described by the spec (§3) and used
throughout `parser.rs`. -/
inductive SyntaxKind where
  | ROOT | OBJECT | ARRAY | ENTRY | KEY | VALUE | ANNOS
  | NULL | BOOL | INTEGER | INTEGER_BIN | INTEGER_OCT | INTEGER_HEX | FLOAT
  | DOUBLE_QUOTE | SINGLE_QUOTE | BACKTICK_QUOTE | IDENT
  | BRACE_START | BRACE_END | BRACKET_START | BRACKET_END
  | PARENTHESES_START | PARENTHESES_END | COLON | COMMA | AT
  | WHITESPACE | NEWLINE | COMMENT_LINE | COMMENT_BLOCK
  | ERROR
deriving DecidableEq, Repr

open SyntaxKind

/-- A lexer token: its kind and its literal text. -/
structure Token where
  kind : SyntaxKind
  text : List Char
deriving DecidableEq, Repr

/-- A parse error, mirroring `parser::Error { range, message }`; `start`/`stop`
are the byte-range endpoints. -/
structure PError where
  start : Nat
  stop : Nat
  message : String
deriving DecidableEq, Repr

/-- A green-tree builder event, mirroring calls on `rowan::GreenNodeBuilder`. -/
inductive Event where
  | startNode (kind : SyntaxKind)
  | finishNode
  | token (kind : SyntaxKind) (text : List Char)
deriving DecidableEq, Repr

/-- A green element: node (kind + children) or token (kind + text),
mirroring rowan's green tree. -/
inductive GElem where
  | node (kind : SyntaxKind) (children : List GElem)
  | token (kind : SyntaxKind) (text : List Char)

mutual
/-- Concatenated token text of a green element, in document order. -/
def GElem.textOf : GElem → List Char
  | .node _ cs => GElem.textList cs
  | .token _ t => t

/-- Concatenated token text of a list of green elements. -/
def GElem.textList : List GElem → List Char
  | [] => []
  | e :: es => GElem.textOf e ++ GElem.textList es
end

/-- Kind of the root of a green element. -/
def GElem.kindOf : GElem → SyntaxKind
  | .node k _ => k
  | .token k _ => k

/-- State of `rowan::GreenNodeBuilder`: a single children vector plus a stack
of unfinished parents `(kind, first_child_index)`, exactly as in rowan. -/
structure BState where
  children : List GElem
  parents : List (SyntaxKind × Nat)

/-- Replay one builder event (rowan `start_node` / `token` / `finish_node`). -/
def replayEvent (b : BState) : Event → BState
  | .startNode k => { b with parents := (k, b.children.length) :: b.parents }
  | .token k t => { b with children := b.children ++ [GElem.token k t] }
  | .finishNode =>
      match b.parents with
      | [] => b
      | (k, i) :: ps =>
          { children := b.children.take i ++ [GElem.node k (b.children.drop i)],
            parents := ps }

/-- Replay a list of builder events from a builder state. -/
def replayEvents (b : BState) : List Event → BState
  | [] => b
  | e :: es => replayEvents (replayEvent b e) es

/-- `GreenNodeBuilder::finish`: succeeds iff the children vector holds exactly
one element and it is a node (rowan asserts/panics otherwise). -/
def finishGreen (events : List Event) : Option GElem :=
  match (replayEvents ⟨[], []⟩ events).children with
  | [e] =>
      match e with
      | .node _ _ => some e
      | .token _ _ => none
  | _ => none

/-- Parser result values: `Ok(())`, `Err(())`, or out-of-fuel (an artifact of
the total embedding; the Rust code has no counterpart for `out`). -/
inductive PRes where
  | ok
  | err
  | out
deriving DecidableEq, Repr

/-- Parser state: remaining lexer tokens, the peeked `current_token`, the span
`tokenStart..tokenEnd` of the most recently lexed token (logos `span()`),
the builder events emitted so far, and the collected errors. -/
structure PState where
  tokens : List Token
  current : Option Token
  tokenStart : Nat
  tokenEnd : Nat
  events : List Event
  errors : List PError
deriving Repr

/-- `builder.start_node(kind)`. -/
def startN (k : SyntaxKind) (st : PState) : PState :=
  { st with events := st.events ++ [.startNode k] }

/-- `builder.finish_node()`. -/
def finishN (st : PState) : PState :=
  { st with events := st.events ++ [.finishNode] }

/-- `Parser::consume_token(kind, text)`: emits the token into the builder and
clears `current_token`. -/
def emitToken (k : SyntaxKind) (t : List Char) (st : PState) : PState :=
  { st with events := st.events ++ [.token k t], current := none }

/-- `Parser::add_error`: pushes the error unless the previous error has the
identical range (dedup look-behind). -/
def addError (st : PState) (e : PError) : PState :=
  match st.errors.getLast? with
  | some l => if l.start = e.start ∧ l.stop = e.stop then st
              else { st with errors := st.errors ++ [e] }
  | none => { st with errors := st.errors ++ [e] }

/-- Add a batch of point-range errors at `base + i` for each index `i`,
mirroring the `for e in err_indices { add_error(...) }` loops. -/
def addPointErrors (msg : String) (base : Nat) (idxs : List Nat) (st : PState) : PState :=
  idxs.foldl (fun s i => addError s ⟨base + i, base + i, msg⟩) st

/-- Rust `char::is_control` (Unicode category Cc). -/
def charIsControl (c : Char) : Bool :=
  c.toNat ≤ 0x1F || (0x7F ≤ c.toNat && c.toNat ≤ 0x9F)

/-- `allowed_chars::comment` from `parser.rs`: indices of characters illegal in
a comment (control chars other than `\t`, plus `\n`/`\r` only allowed when
`multiline`). `chars().enumerate()` with a push is the same as filtering the
index range. -/
def commentErrIdxs (multiline : Bool) (s : List Char) : List Nat :=
  (List.range s.length).filter fun i =>
    let c := s.getD i ' '
    if multiline then c ≠ '\t' && c ≠ '\n' && c ≠ '\r' && charIsControl c
    else c ≠ '\t' && charIsControl c

/-- `allowed_chars::string` from `parser.rs`: indices of characters in the
ranges U+0000..U+0008, U+000A..U+001F or U+007F (other than `\t`). -/
def stringErrIdxs (s : List Char) : List Nat :=
  (List.range s.length).filter fun i =>
    let c := s.getD i ' '
    c ≠ '\t' && (c.toNat ≤ 0x08 || (0x0A ≤ c.toNat && c.toNat ≤ 0x1F) || c.toNat = 0x7F)

/-- `allowed_chars::backtick_string` from `parser.rs`: as `string` but also
permitting `\n` and `\r`. -/
def backtickErrIdxs (s : List Char) : List Nat :=
  (List.range s.length).filter fun i =>
    let c := s.getD i ' '
    c ≠ '\t' && c ≠ '\n' && c ≠ '\r' &&
      (c.toNat ≤ 0x08 || (0x0A ≤ c.toNat && c.toNat ≤ 0x1F) || c.toNat = 0x7F)

/-- Rust `char::to_digit(radix)`. -/
def charToDigit (c : Char) : Option Nat :=
  if '0' ≤ c ∧ c ≤ '9' then some (c.toNat - '0'.toNat)
  else if 'a' ≤ c ∧ c ≤ 'z' then some (c.toNat - 'a'.toNat + 10)
  else if 'A' ≤ c ∧ c ≤ 'Z' then some (c.toNat - 'A'.toNat + 10)
  else none

/-- Rust `char::is_digit(radix)`. -/
def isDigitR (radix : Nat) (c : Char) : Bool :=
  match charToDigit c with
  | some d => d < radix
  | none => false

/-- The character-scan loop of `validate_underscore_integer`, carrying
`prev_char` (initially `'\0'`). -/
def vuLoop (radix : Nat) (prev : Char) : List Char → Bool
  | [] => true
  | c :: rest =>
      if c = '_' && !isDigitR radix prev then false
      else if !isDigitR radix c && prev = '_' then false
      else vuLoop radix c rest

/-- `validate_underscore_integer` from `parser.rs`. -/
def validate_underscore_integer (s : List Char) (radix : Nat) : Bool :=
  if s.head? = some '_' || s.getLast? = some '_' then false
  else vuLoop radix (Char.ofNat 0) s

/-- Modelled from the spec: `check_escape` (from the missing
`crates/jsona/src/util/escape.rs`). Valid escapes are
`\" \\ \/ \b \f \n \r \t \uXXXX` (§4.2); the function returns the index of
the backslash of each invalid escape. `i` is the index of the head of the
list within the whole token text. -/
def hex4 (l : List Char) : Bool :=
  (l.take 4).length = 4 && (l.take 4).all (isDigitR 16)

/-- Modelled from the spec: the scan loop of `check_escape`; see `checkEscape`.
The `fuel` parameter makes the recursion structural; `checkEscape` supplies
enough fuel that it never runs out (every step consumes at least one
character). -/
def checkEscapeGo : Nat → Nat → List Char → List Nat
  | 0, _, _ => []
  | fuel + 1, i, l =>
    match l with
    | [] => []
    | '\\' :: c :: rest =>
        if c = '"' ∨ c = '\\' ∨ c = '/' ∨ c = 'b' ∨ c = 'f' ∨ c = 'n' ∨ c = 'r' ∨ c = 't' then
          checkEscapeGo fuel (i + 2) rest
        else if c = 'u' then
          if hex4 rest then checkEscapeGo fuel (i + 6) (rest.drop 4)
          else i :: checkEscapeGo fuel (i + 2) rest
        else i :: checkEscapeGo fuel (i + 2) rest
    | '\\' :: [] => [i]
    | _ :: rest => checkEscapeGo fuel (i + 1) rest

/-- Modelled from the spec: `check_escape` applied to a whole quoted token. -/
def checkEscape (s : List Char) : List Nat :=
  checkEscapeGo s.length 0 s

/-- `Parser::next_token`: the lexer-draining loop. Trivia (whitespace,
newlines, comments) and lexer `ERROR` tokens are emitted directly into the
builder (comments are char-class-checked, `ERROR` adds "unexpected token");
the first significant token is stored as `current`. At exhaustion logos
leaves `span() = len..len`. -/
def nextTokenGo : List Token → PState → PState
  | [], st => { st with tokens := [], current := none, tokenStart := st.tokenEnd }
  | t :: rest, st =>
      let s := st.tokenEnd
      let e := s + t.text.length
      let st := { st with tokens := rest, tokenStart := s, tokenEnd := e }
      match t.kind with
      | COMMENT_LINE =>
          let st := addPointErrors "invalid character in comment" s (commentErrIdxs false t.text) st
          nextTokenGo rest (emitToken t.kind t.text st)
      | COMMENT_BLOCK =>
          let st := addPointErrors "invalid character in comment" s (commentErrIdxs true t.text) st
          nextTokenGo rest (emitToken t.kind t.text st)
      | WHITESPACE => nextTokenGo rest (emitToken t.kind t.text st)
      | NEWLINE => nextTokenGo rest (emitToken t.kind t.text st)
      | ERROR =>
          let st := emitToken ERROR t.text st
          let st := addError st ⟨s, e, "unexpected token"⟩
          nextTokenGo rest st
      | _ => { st with current := some t }

/-- `Parser::next_token` (entry point: clears `current_token` first). -/
def nextToken (st : PState) : PState :=
  nextTokenGo st.tokens { st with current := none }

/-- `Parser::peek_token`; returns the peeked token (the Rust code returns its
kind and reads the text from `lexer.slice()`, which is the same data). -/
def peekToken (st : PState) : Option Token × PState :=
  match st.current with
  | some t => (some t, st)
  | none =>
      let st := nextToken st
      (st.current, st)

/-- `Parser::must_peek_token`: peek or record "unexpected EOF". -/
def mustPeekToken (st : PState) : Option Token × PState :=
  match peekToken st with
  | (some t, st) => (some t, st)
  | (none, st) => (none, addError st ⟨st.tokenStart, st.tokenEnd, "unexpected EOF"⟩)

/-- `Parser::must_peek_eof`: expects exhaustion, records "expected EOF"
otherwise. -/
def mustPeekEof (st : PState) : PRes × PState :=
  match peekToken st with
  | (some _, st) => (.err, addError st ⟨st.tokenStart, st.tokenEnd, "expected EOF"⟩)
  | (none, st) => (.ok, st)

/-- `Parser::consume_current_token`. -/
def consumeCurrent (st : PState) : PRes × PState :=
  match peekToken st with
  | (none, st) => (.err, st)
  | (some t, st) => (.ok, emitToken t.kind t.text st)

/-- `Parser::consume_error_token`: records the error at the current span
and emits the current token under the `ERROR` kind. -/
def consumeErrorToken (msg : String) (st : PState) : PRes × PState :=
  let st := addError st ⟨st.tokenStart, st.tokenEnd, msg⟩
  match st.current with
  | some t => (.err, emitToken ERROR t.text st)
  | none => (.err, emitToken ERROR [] st)

/-- `Parser::must_token_or`. -/
def mustTokenOr (k : SyntaxKind) (msg : String) (st : PState) : PRes × PState :=
  match mustPeekToken st with
  | (none, st) => (.err, st)
  | (some t, st) =>
      if t.kind = k then consumeCurrent st
      else (.err, addError st ⟨st.tokenStart, st.tokenEnd, msg⟩)

/-- The zero-padding rejection test of `parse_value`'s `INTEGER` branch:
`starts_with('0') && != "0"`, likewise after a `+` or `-` sign. -/
def zeroPadCond (s : List Char) : Bool :=
  (s.head? = some '0' && s ≠ ['0']) ||
  (decide (['+', '0'] <+: s) && s ≠ ['+', '0']) ||
  (decide (['-', '0'] <+: s) && s ≠ ['-', '0'])

/-- The integer slice of a `FLOAT` token: text before the first `.` if a dot is
present, else before the first `e` (`slice.split('.').next()` /
`slice.split('e').next()`). -/
def floatIntSlice (s : List Char) : List Char :=
  if s.contains '.' then s.takeWhile (· ≠ '.') else s.takeWhile (· ≠ 'e')

mutual

/-- `Parser::parse_root`: `parse_annos()?; with_node!(VALUE, parse_value())?;
must_peek_eof()`. -/
def parseRoot (fuel : Nat) (st : PState) : PRes × PState :=
  match fuel with
  | 0 => (.out, st)
  | fuel + 1 =>
      match parseAnnos fuel st with
      | (.ok, st) =>
          let st := startN VALUE st
          match parseValue fuel st with
          | (.ok, st) => mustPeekEof (finishN st)
          | (r, st) => (r, finishN st)
      | (r, st) => (r, st)

/-- `Parser::parse_annos`: if the next token is `@`, open an `ANNOS` node and
run the entry loop; note that an `Err` from the loop propagates *without*
finishing the `ANNOS` node (the `?` sits inside the `if`). -/
def parseAnnos (fuel : Nat) (st : PState) : PRes × PState :=
  match fuel with
  | 0 => (.out, st)
  | fuel + 1 =>
      match peekToken st with
      | (some t, st) =>
          if t.kind = AT then
            let st := startN ANNOS st
            match annosLoop fuel st with
            | (.ok, st) => (.ok, finishN st)
            | (r, st) => (r, st)
          else (.ok, st)
      | (none, st) => (.ok, st)

/-- The `while let Ok(AT) = self.peek_token()` loop of `parse_annos`. -/
def annosLoop (fuel : Nat) (st : PState) : PRes × PState :=
  match fuel with
  | 0 => (.out, st)
  | fuel + 1 =>
      match peekToken st with
      | (some t, st) =>
          if t.kind = AT then
            let st := startN ENTRY st
            match parseAnnoEntry fuel st with
            | (.ok, st) => annosLoop fuel (finishN st)
            | (r, st) => (r, finishN st)
          else (.ok, st)
      | (none, st) => (.ok, st)

/-- `Parser::parse_anno_entry`. -/
def parseAnnoEntry (fuel : Nat) (st : PState) : PRes × PState :=
  match fuel with
  | 0 => (.out, st)
  | fuel + 1 =>
      match mustTokenOr AT "expected \"@\"" st with
      | (.ok, st) =>
          let st := startN KEY st
          match parseKey fuel st with
          | (.ok, st) =>
              let st := finishN st
              match peekToken st with
              | (some t, st) =>
                  if t.kind = PARENTHESES_START then
                    let st := startN VALUE st
                    match parseAnnoValue fuel st with
                    | (.ok, st) => (.ok, finishN st)
                    | (r, st) => (r, finishN st)
                  else (.ok, st)
              | (none, st) => (.ok, st)
          | (r, st) => (r, finishN st)
      | (r, st) => (r, st)

/-- `Parser::parse_anno_value`. -/
def parseAnnoValue (fuel : Nat) (st : PState) : PRes × PState :=
  match fuel with
  | 0 => (.out, st)
  | fuel + 1 =>
      match mustTokenOr PARENTHESES_START "expected \"(\"" st with
      | (.ok, st) =>
          let st := startN VALUE st
          match parseValue fuel st with
          | (.ok, st) => mustTokenOr PARENTHESES_END "expected \")\"" (finishN st)
          | (r, st) => (r, finishN st)
      | (r, st) => (r, st)

/-- `Parser::parse_entry`. -/
def parseEntry (fuel : Nat) (st : PState) : PRes × PState :=
  match fuel with
  | 0 => (.out, st)
  | fuel + 1 =>
      let st0 := startN KEY st
      match parseKey fuel st0 with
      | (.ok, st) =>
          match mustTokenOr COLON "expected \":\"" (finishN st) with
          | (.ok, st) =>
              let st := startN VALUE st
              match parseValueWithAnnos BRACE_END fuel st with
              | (.ok, st) => (.ok, finishN st)
              | (r, st) => (r, finishN st)
          | (r, st) => (r, st)
      | (r, st) => (r, finishN st)

/-- `Parser::parse_value`. -/
def parseValue (fuel : Nat) (st : PState) : PRes × PState :=
  match fuel with
  | 0 => (.out, st)
  | fuel + 1 =>
      match mustPeekToken st with
      | (none, st) => (.err, st)
      | (some t, st) =>
          match t.kind with
          | BRACE_START =>
              let st := startN OBJECT st
              match parseObject fuel st with
              | (r, st) => (r, finishN st)
          | BRACKET_START =>
              let st := startN ARRAY st
              match parseArray fuel st with
              | (r, st) => (r, finishN st)
          | NULL => consumeCurrent st
          | BOOL => consumeCurrent st
          | INTEGER =>
              if zeroPadCond t.text then
                consumeErrorToken "zero-padded integers are not allowed" st
              else if !validate_underscore_integer t.text 10 then
                consumeErrorToken "invalid underscores" st
              else consumeCurrent st
          | INTEGER_BIN =>
              if !validate_underscore_integer t.text 2 then
                consumeErrorToken "invalid underscores" st
              else consumeCurrent st
          | INTEGER_HEX =>
              if !validate_underscore_integer t.text 16 then
                consumeErrorToken "invalid underscores" st
              else consumeCurrent st
          | INTEGER_OCT =>
              if !validate_underscore_integer t.text 8 then
                consumeErrorToken "invalid underscores" st
              else consumeCurrent st
          | FLOAT =>
              if zeroPadCond (floatIntSlice t.text) then
                consumeErrorToken "zero-padded numbers are not allowed" st
              else if !validate_underscore_integer t.text 10 then
                consumeErrorToken "invalid underscores" st
              else consumeCurrent st
          | DOUBLE_QUOTE =>
              let st := addPointErrors "invalid character in string" st.tokenStart
                (stringErrIdxs t.text) st
              let st := addPointErrors "invalid escape sequence" st.tokenStart
                (checkEscape t.text) st
              consumeCurrent st
          | SINGLE_QUOTE =>
              let st := addPointErrors "invalid character in string" st.tokenStart
                (stringErrIdxs t.text) st
              let st := addPointErrors "invalid escape sequence" st.tokenStart
                (checkEscape t.text) st
              consumeCurrent st
          | BACKTICK_QUOTE =>
              let st := addPointErrors "invalid character in string" st.tokenStart
                (backtickErrIdxs t.text) st
              consumeCurrent st
          | _ => consumeErrorToken "expected value" st

/-- `Parser::parse_value_with_annos(kind)`: parse a value, remember its span,
optionally consume a comma, parse trailing annotations, then report
`expect ","` at the *saved* span if neither a comma was seen nor the closing
`kind` follows. -/
def parseValueWithAnnos (kind : SyntaxKind) (fuel : Nat) (st : PState) : PRes × PState :=
  match fuel with
  | 0 => (.out, st)
  | fuel + 1 =>
      match parseValue fuel st with
      | (.ok, st) =>
          let s0 := st.tokenStart
          let e0 := st.tokenEnd
          match peekToken st with
          | (some t, st) =>
              if t.kind = COMMA then
                match consumeCurrent st with
                | (.ok, st) => parseVWATail kind s0 e0 true fuel st
                | (r, st) => (r, st)
              else parseVWATail kind s0 e0 false fuel st
          | (none, st) => parseVWATail kind s0 e0 false fuel st
      | (r, st) => (r, st)

/-- The tail of `parse_value_with_annos` after the optional comma:
`parse_annos()?; let is_end = peek_token()? == kind; if !is_comma && !is_end
{ add_error(expect ",") }`. -/
def parseVWATail (kind : SyntaxKind) (s0 e0 : Nat) (isComma : Bool) (fuel : Nat)
    (st : PState) : PRes × PState :=
  match fuel with
  | 0 => (.out, st)
  | fuel + 1 =>
      match parseAnnos fuel st with
      | (.ok, st) =>
          match peekToken st with
          | (some t, st) =>
              if !isComma && !(t.kind = kind) then
                (.ok, addError st ⟨s0, e0, "expect \",\""⟩)
              else (.ok, st)
          | (none, st) => (.err, st)
      | (r, st) => (r, st)

/-- `Parser::parse_object`: consume `{`, `parse_annos()?`, then the entry
loop. -/
def parseObject (fuel : Nat) (st : PState) : PRes × PState :=
  match fuel with
  | 0 => (.out, st)
  | fuel + 1 =>
      match mustTokenOr BRACE_START "expected \"\x7b\"" st with
      | (.ok, st) =>
          match parseAnnos fuel st with
          | (.ok, st) => objectLoop fuel st
          | (r, st) => (r, st)
      | (r, st) => (r, st)

/-- The `while let Ok(t) = self.must_peek_token()` loop of `parse_object`. -/
def objectLoop (fuel : Nat) (st : PState) : PRes × PState :=
  match fuel with
  | 0 => (.out, st)
  | fuel + 1 =>
      match mustPeekToken st with
      | (none, st) => (.ok, st)
      | (some t, st) =>
          match t.kind with
          | BRACE_END => consumeCurrent st
          | AT =>
              let st := addError st ⟨st.tokenStart, st.tokenEnd, "unexpected \"@\""⟩
              match parseAnnos fuel st with
              | (.ok, st) => objectLoop fuel st
              | (r, st) => (r, st)
          | _ =>
              let st := startN ENTRY st
              match parseEntry fuel st with
              | (_, st) => objectLoop fuel (finishN st)

/-- `Parser::parse_array`: consume `[`, `let _ = parse_annos()`, then the item
loop. -/
def parseArray (fuel : Nat) (st : PState) : PRes × PState :=
  match fuel with
  | 0 => (.out, st)
  | fuel + 1 =>
      match mustTokenOr BRACKET_START "expected \"[\"" st with
      | (.ok, st) =>
          match parseAnnos fuel st with
          | (_, st) => arrayLoop fuel st
      | (r, st) => (r, st)

/-- The `while let Ok(t) = self.must_peek_token()` loop of `parse_array`. -/
def arrayLoop (fuel : Nat) (st : PState) : PRes × PState :=
  match fuel with
  | 0 => (.out, st)
  | fuel + 1 =>
      match mustPeekToken st with
      | (none, st) => (.ok, st)
      | (some t, st) =>
          match t.kind with
          | BRACKET_END => consumeCurrent st
          | AT =>
              let st := addError st ⟨st.tokenStart, st.tokenEnd, "unexpected \"@\""⟩
              match parseAnnos fuel st with
              | (.ok, st) => arrayLoop fuel st
              | (r, st) => (r, st)
          | _ =>
              let st := startN VALUE st
              match parseValueWithAnnos BRACKET_END fuel st with
              | (_, st) => arrayLoop fuel (finishN st)

/-- `Parser::parse_key`. -/
def parseKey (fuel : Nat) (st : PState) : PRes × PState :=
  match fuel with
  | 0 => (.out, st)
  | fuel + 1 =>
      match mustPeekToken st with
      | (none, st) => (.err, st)
      | (some t, st) =>
          match t.kind with
          | IDENT => consumeCurrent st
          | NULL => consumeCurrent st
          | BOOL => consumeCurrent st
          | INTEGER_HEX => consumeCurrent st
          | INTEGER_BIN => consumeCurrent st
          | INTEGER_OCT => consumeCurrent st
          | INTEGER =>
              if t.text.head? = some '+' then (.err, st)
              else consumeCurrent st
          | SINGLE_QUOTE =>
              let st := addPointErrors "invalid control character in string" st.tokenStart
                (stringErrIdxs t.text) st
              consumeCurrent st
          | DOUBLE_QUOTE =>
              let st := addPointErrors "invalid control character in string" st.tokenStart
                (stringErrIdxs t.text) st
              consumeCurrent st
          | FLOAT =>
              if t.text.head? = some '0' then
                consumeErrorToken "zero-padded numbers are not allowed" st
              else if t.text.head? = some '+' then (.err, st)
              else consumeCurrent st
          | _ => consumeErrorToken "expected identifier" st

end

/-- `Parser::parse`: open the `ROOT` node, run `parse_root` (result
discarded), close one node, finish the builder. -/
def runParser (fuel : Nat) (tokens : List Token) : PRes × PState :=
  let st : PState := ⟨tokens, none, 0, 0, [], []⟩
  let st := startN ROOT st
  match parseRoot fuel st with
  | (r, st) => (r, finishN st)

/-- The full parse output: the green root (if rowan's `finish` succeeds) and
the final parser state. -/
def parseGreen (fuel : Nat) (tokens : List Token) : Option GElem × PState :=
  match runParser fuel tokens with
  | (_, st) => (finishGreen st.events, st)

/-- Whitespace characters (spec §4.1 trivia). -/
def isWsChar (c : Char) : Bool := c = ' ' || c = '\t'

/-- Newline characters. -/
def isNlChar (c : Char) : Bool := c = '\n' || c = '\r'

/-- Decimal digit or underscore (the `[0-9_]` class of the spec's number
tokens). -/
def isDigU (c : Char) : Bool := c.isDigit || c = '_'

/-- Identifier continuation characters `[A-Za-z0-9_]`. -/
def isIdentChar (c : Char) : Bool := c.isAlphanum || c = '_'

/-- Keyword classification of an identifier-shaped chunk (spec §4.1):
`null`, `true`, `false` are keywords, everything else is `IDENT`. -/
def keywordKind (t : List Char) : SyntaxKind :=
  if t = "null".data then NULL
  else if t = "true".data ∨ t = "false".data then BOOL
  else IDENT

/-- Scan a quoted string body (after the opening quote `q`) up to and
including the closing quote, skipping backslash-escaped pairs; `none` if the
string is unterminated. -/
def scanStr (q : Char) : List Char → Option (List Char × List Char)
  | [] => none
  | c :: rest =>
      if c = q then some ([c], rest)
      else if c = '\\' then
        match rest with
        | [] => none
        | d :: rest' =>
            match scanStr q rest' with
            | some (cs, r) => some (c :: d :: cs, r)
            | none => none
      else
        match scanStr q rest with
        | some (cs, r) => some (c :: cs, r)
        | none => none

/-- Scan a block-comment body (after `/*`) up to and including the closing
`*/` (or to the end of input). -/
def scanBlock (l : List Char) : List Char × List Char :=
  match l with
  | [] => ([], [])
  | c :: rest =>
      if c = '*' ∧ rest.head? = some '/' then ([c, '/'], rest.tail)
      else (c :: (scanBlock rest).1, (scanBlock rest).2)


/-- Scan the fraction part `.[0-9_]+` of a float, if present. -/
def scanFrac (l : List Char) : List Char × List Char :=
  match l with
  | '.' :: t =>
      if t.takeWhile isDigU = [] then ([], l)
      else ('.' :: t.takeWhile isDigU, t.dropWhile isDigU)
  | _ => ([], l)

/-- Scan the exponent part `e[+-]?[0-9_]+` of a float, if present. -/
def scanExpo (l : List Char) : List Char × List Char :=
  match l with
  | 'e' :: s :: t =>
      if s = '+' ∨ s = '-' then
        if t.takeWhile isDigU = [] then ([], l)
        else ('e' :: s :: t.takeWhile isDigU, t.dropWhile isDigU)
      else
        if (s :: t).takeWhile isDigU = [] then ([], l)
        else ('e' :: (s :: t).takeWhile isDigU, (s :: t).dropWhile isDigU)
  | _ => ([], l)

/-- Scan a decimal number starting at `l` (digits, then optional fraction,
then optional exponent). Returns the consumed text and the remainder. -/
def scanNum (l : List Char) : List Char × List Char :=
  (l.takeWhile isDigU ++ (scanFrac (l.dropWhile isDigU)).1 ++
     (scanExpo (scanFrac (l.dropWhile isDigU)).2).1,
   (scanExpo (scanFrac (l.dropWhile isDigU)).2).2)

/-- Number token kind: `FLOAT` iff the text contains `.` or `e`. -/
def numKind (t : List Char) : SyntaxKind :=
  if t.contains '.' ∨ t.contains 'e' then FLOAT else INTEGER

theorem scanStr_append (q : Char) :
    ∀ (n : Nat) (l : List Char), l.length ≤ n →
      ∀ cs r, scanStr q l = some (cs, r) → cs ++ r = l := by
  intro n
  induction n with
  | zero =>
      intro l hl cs r h
      interval_cases hl' : l.length
      · rw [List.length_eq_zero] at hl'; subst hl'; simp [scanStr] at h
  | succ n ih =>
      intro l hl cs r h
      match l with
      | [] => simp [scanStr] at h
      | c :: rest =>
          rw [scanStr.eq_def] at h
          dsimp only at h
          by_cases hq : c = q
          · rw [if_pos hq] at h
            simp only [Option.some.injEq, Prod.mk.injEq] at h
            obtain ⟨rfl, rfl⟩ := h
            rfl
          · rw [if_neg hq] at h
            by_cases hb : c = '\\'
            · rw [if_pos hb] at h
              match rest with
              | [] => simp at h
              | d :: rest' =>
                  dsimp only at h
                  rcases hs : scanStr q rest' with _ | ⟨cs', r'⟩ <;> rw [hs] at h
                  · simp at h
                  · simp only [Option.some.injEq, Prod.mk.injEq] at h
                    obtain ⟨rfl, rfl⟩ := h
                    have hlen : rest'.length ≤ n := by
                      simp only [List.length_cons] at hl; omega
                    have := ih rest' hlen cs' r' hs
                    simp [← this]
            · rw [if_neg hb] at h
              rcases hs : scanStr q rest with _ | ⟨cs', r'⟩ <;> rw [hs] at h
              · simp at h
              · simp only [Option.some.injEq, Prod.mk.injEq] at h
                obtain ⟨rfl, rfl⟩ := h
                have hlen : rest.length ≤ n := by
                  simp only [List.length_cons] at hl; omega
                have := ih rest hlen cs' r' hs
                simp [← this]

theorem scanBlock_append (l : List Char) : (scanBlock l).1 ++ (scanBlock l).2 = l := by
  induction l with
  | nil => simp [scanBlock]
  | cons c rest ih =>
      rw [scanBlock.eq_def]
      dsimp only
      split
      · next hc =>
          obtain ⟨rfl, hh⟩ := hc
          rcases rest with _ | ⟨d, rest'⟩
          · simp at hh
          · simp only [List.head?_cons, Option.some.injEq] at hh
            subst hh
            simp
      · simpa using ih

theorem scanFrac_append (l : List Char) : (scanFrac l).1 ++ (scanFrac l).2 = l := by
  rw [scanFrac.eq_def]
  split
  · split
    · simp
    · simp [List.takeWhile_append_dropWhile]
  · simp

theorem scanExpo_append (l : List Char) : (scanExpo l).1 ++ (scanExpo l).2 = l := by
  rw [scanExpo.eq_def]
  split
  · split
    · split
      · simp
      · simp [List.takeWhile_append_dropWhile]
    · split
      · simp
      · simp [List.takeWhile_append_dropWhile]
  · simp

theorem scanNum_append (l : List Char) : (scanNum l).1 ++ (scanNum l).2 = l := by
  simp only [scanNum]
  calc List.takeWhile isDigU l ++ (scanFrac (l.dropWhile isDigU)).1 ++
        (scanExpo (scanFrac (l.dropWhile isDigU)).2).1 ++
        (scanExpo (scanFrac (l.dropWhile isDigU)).2).2
      = List.takeWhile isDigU l ++ ((scanFrac (l.dropWhile isDigU)).1 ++
          ((scanExpo (scanFrac (l.dropWhile isDigU)).2).1 ++
           (scanExpo (scanFrac (l.dropWhile isDigU)).2).2)) := by
        simp [List.append_assoc]
    _ = List.takeWhile isDigU l ++ ((scanFrac (l.dropWhile isDigU)).1 ++
          (scanFrac (l.dropWhile isDigU)).2) := by
        rw [scanExpo_append]
    _ = List.takeWhile isDigU l ++ l.dropWhile isDigU := by
        rw [scanFrac_append]
    _ = l := List.takeWhile_append_dropWhile isDigU l

/-- Binary digit or underscore. -/
def isBinU (c : Char) : Bool := c = '0' || c = '1' || c = '_'

/-- Octal digit or underscore. -/
def isOctU (c : Char) : Bool := isDigitR 8 c || c = '_'

/-- Hex digit or underscore. -/
def isHexU (c : Char) : Bool := isDigitR 16 c || c = '_'

/-- Decimal-number token starting at `c :: rest` (`c` a digit). -/
def decNum (c : Char) (rest : List Char) : Token × List Char :=
  (⟨numKind (scanNum (c :: rest)).1, (scanNum (c :: rest)).1⟩, (scanNum (c :: rest)).2)

/-- Signed number token: sign `c` followed by the number scanned from
`rest`. -/
def signNum (c : Char) (rest : List Char) : Token × List Char :=
  (⟨numKind (c :: (scanNum rest).1), c :: (scanNum rest).1⟩, (scanNum rest).2)

/-- Modelled from the spec: one step of the lexer, classifying the token that
starts at `c` (with `rest` following) per §4.1: trivia, comments,
punctuation, three string quotings, radix-prefixed integers, decimal
numbers/floats with optional sign, identifiers/keywords (a chunk of digits
and underscores starting with `_` lexes as `INTEGER`, per the spec's
"_1 → invalid underscores" boundary case), `ERROR` for anything else. -/
def lexStep (c : Char) (rest : List Char) : Token × List Char :=
  if isWsChar c then
    (⟨WHITESPACE, c :: rest.takeWhile isWsChar⟩, rest.dropWhile isWsChar)
  else if isNlChar c then
    (⟨NEWLINE, c :: rest.takeWhile isNlChar⟩, rest.dropWhile isNlChar)
  else if c = '{' then (⟨BRACE_START, [c]⟩, rest)
  else if c = '}' then (⟨BRACE_END, [c]⟩, rest)
  else if c = '[' then (⟨BRACKET_START, [c]⟩, rest)
  else if c = ']' then (⟨BRACKET_END, [c]⟩, rest)
  else if c = '(' then (⟨PARENTHESES_START, [c]⟩, rest)
  else if c = ')' then (⟨PARENTHESES_END, [c]⟩, rest)
  else if c = ':' then (⟨COLON, [c]⟩, rest)
  else if c = ',' then (⟨COMMA, [c]⟩, rest)
  else if c = '@' then (⟨AT, [c]⟩, rest)
  else if c = '/' then
    match rest with
    | '/' :: t =>
        (⟨COMMENT_LINE, c :: '/' :: t.takeWhile (fun x => !isNlChar x)⟩,
         t.dropWhile (fun x => !isNlChar x))
    | '*' :: t => (⟨COMMENT_BLOCK, c :: '*' :: (scanBlock t).1⟩, (scanBlock t).2)
    | _ => (⟨ERROR, [c]⟩, rest)
  else if c = '"' then
    match scanStr '"' rest with
    | some (cs, r) => (⟨DOUBLE_QUOTE, c :: cs⟩, r)
    | none => (⟨ERROR, [c]⟩, rest)
  else if c = '\'' then
    match scanStr '\'' rest with
    | some (cs, r) => (⟨SINGLE_QUOTE, c :: cs⟩, r)
    | none => (⟨ERROR, [c]⟩, rest)
  else if c = '`' then
    match rest.dropWhile (· ≠ '`') with
    | '`' :: r => (⟨BACKTICK_QUOTE, (c :: rest.takeWhile (· ≠ '`')) ++ ['`']⟩, r)
    | _ => (⟨ERROR, [c]⟩, rest)
  else if c = '0' then
    match rest with
    | 'b' :: t =>
        if t.takeWhile isBinU = [] then decNum c rest
        else (⟨INTEGER_BIN, '0' :: 'b' :: t.takeWhile isBinU⟩, t.dropWhile isBinU)
    | 'o' :: t =>
        if t.takeWhile isOctU = [] then decNum c rest
        else (⟨INTEGER_OCT, '0' :: 'o' :: t.takeWhile isOctU⟩, t.dropWhile isOctU)
    | 'x' :: t =>
        if t.takeWhile isHexU = [] then decNum c rest
        else (⟨INTEGER_HEX, '0' :: 'x' :: t.takeWhile isHexU⟩, t.dropWhile isHexU)
    | _ => decNum c rest
  else if c.isDigit then decNum c rest
  else if c = '+' ∨ c = '-' then
    match rest with
    | d :: _ => if isDigU d then signNum c rest else (⟨ERROR, [c]⟩, rest)
    | [] => (⟨ERROR, [c]⟩, rest)
  else if c.isAlpha ∨ c = '_' then
    (⟨if c = '_' ∧ (c :: rest.takeWhile isIdentChar).all isDigU then INTEGER
      else keywordKind (c :: rest.takeWhile isIdentChar),
      c :: rest.takeWhile isIdentChar⟩,
     rest.dropWhile isIdentChar)
  else (⟨ERROR, [c]⟩, rest)

theorem scanStr_closes (q : Char) (l cs r : List Char) (h : scanStr q l = some (cs, r)) :
    cs ++ r = l :=
  scanStr_append q l.length l le_rfl cs r h

theorem decNum_append (c : Char) (rest : List Char) :
    (decNum c rest).1.text ++ (decNum c rest).2 = c :: rest := by
  simp only [decNum]
  exact scanNum_append (c :: rest)

theorem signNum_append (c : Char) (rest : List Char) :
    (signNum c rest).1.text ++ (signNum c rest).2 = c :: rest := by
  simp only [signNum, List.cons_append, List.cons.injEq, true_and]
  exact scanNum_append rest

set_option maxHeartbeats 1000000 in
theorem lexStep_append (c : Char) (rest : List Char) :
    (lexStep c rest).1.text ++ (lexStep c rest).2 = c :: rest := by
  unfold lexStep
  by_cases h1 : isWsChar c = true
  case pos => rw [if_pos h1]; simp [List.takeWhile_append_dropWhile]
  rw [if_neg h1]
  by_cases h2 : isNlChar c = true
  case pos => rw [if_pos h2]; simp [List.takeWhile_append_dropWhile]
  rw [if_neg h2]
  by_cases h3 : c = '{'
  case pos => rw [if_pos h3]; simp
  rw [if_neg h3]
  by_cases h4 : c = '}'
  case pos => rw [if_pos h4]; simp
  rw [if_neg h4]
  by_cases h5 : c = '['
  case pos => rw [if_pos h5]; simp
  rw [if_neg h5]
  by_cases h6 : c = ']'
  case pos => rw [if_pos h6]; simp
  rw [if_neg h6]
  by_cases h7 : c = '('
  case pos => rw [if_pos h7]; simp
  rw [if_neg h7]
  by_cases h8 : c = ')'
  case pos => rw [if_pos h8]; simp
  rw [if_neg h8]
  by_cases h9 : c = ':'
  case pos => rw [if_pos h9]; simp
  rw [if_neg h9]
  by_cases h10 : c = ','
  case pos => rw [if_pos h10]; simp
  rw [if_neg h10]
  by_cases h11 : c = '@'
  case pos => rw [if_pos h11]; simp
  rw [if_neg h11]
  by_cases h12 : c = '/'
  case pos =>
    rw [if_pos h12]
    split
    · simp [List.takeWhile_append_dropWhile]
    · next t =>
        have hb := scanBlock_append t
        rcases hsb : scanBlock t with ⟨cs, r⟩
        rw [hsb] at hb
        simp_all
    · simp
  rw [if_neg h12]
  by_cases h13 : c = '"'
  case pos =>
    rw [if_pos h13]
    split
    · next cs r hs =>
        have := scanStr_closes _ _ _ _ hs
        simp [← this]
    · simp
  rw [if_neg h13]
  by_cases h14 : c = '\''
  case pos =>
    rw [if_pos h14]
    split
    · next cs r hs =>
        have := scanStr_closes _ _ _ _ hs
        simp [← this]
    · simp
  rw [if_neg h14]
  by_cases h15 : c = '`'
  case pos =>
    rw [if_pos h15]
    split
    · next r hdw =>
        have htw := List.takeWhile_append_dropWhile
          (p := fun x : Char => decide (x ≠ '`')) (l := rest)
        rw [hdw] at htw
        conv_rhs => rw [← htw]
        simp
    · simp
  rw [if_neg h15]
  by_cases h16 : c = '0'
  case pos =>
    rw [if_pos h16]
    subst h16
    split
    · split
      · exact decNum_append _ _
      · simp [List.takeWhile_append_dropWhile]
    · split
      · exact decNum_append _ _
      · simp [List.takeWhile_append_dropWhile]
    · split
      · exact decNum_append _ _
      · simp [List.takeWhile_append_dropWhile]
    · exact decNum_append _ _
  rw [if_neg h16]
  by_cases h17 : c.isDigit = true
  case pos => rw [if_pos h17]; exact decNum_append _ _
  rw [if_neg h17]
  by_cases h18 : c = '+' ∨ c = '-'
  case pos =>
    rw [if_pos h18]
    split
    · split
      · exact signNum_append _ _
      · simp
    · simp
  rw [if_neg h18]
  by_cases h19 : c.isAlpha = true ∨ c = '_'
  case pos => rw [if_pos h19]; simp [List.takeWhile_append_dropWhile]
  rw [if_neg h19]
  simp

theorem decNum_text_ne (c : Char) (rest : List Char) (h : isDigU c = true) :
    (decNum c rest).1.text ≠ [] := by
  simp only [decNum, scanNum]
  rw [List.takeWhile_cons_of_pos h]
  simp

set_option maxHeartbeats 1000000 in
theorem lexStep_text_ne (c : Char) (rest : List Char) :
    (lexStep c rest).1.text ≠ [] := by
  unfold lexStep
  by_cases h1 : isWsChar c = true
  case pos => rw [if_pos h1]; simp
  rw [if_neg h1]
  by_cases h2 : isNlChar c = true
  case pos => rw [if_pos h2]; simp
  rw [if_neg h2]
  by_cases h3 : c = '{'
  case pos => rw [if_pos h3]; simp
  rw [if_neg h3]
  by_cases h4 : c = '}'
  case pos => rw [if_pos h4]; simp
  rw [if_neg h4]
  by_cases h5 : c = '['
  case pos => rw [if_pos h5]; simp
  rw [if_neg h5]
  by_cases h6 : c = ']'
  case pos => rw [if_pos h6]; simp
  rw [if_neg h6]
  by_cases h7 : c = '('
  case pos => rw [if_pos h7]; simp
  rw [if_neg h7]
  by_cases h8 : c = ')'
  case pos => rw [if_pos h8]; simp
  rw [if_neg h8]
  by_cases h9 : c = ':'
  case pos => rw [if_pos h9]; simp
  rw [if_neg h9]
  by_cases h10 : c = ','
  case pos => rw [if_pos h10]; simp
  rw [if_neg h10]
  by_cases h11 : c = '@'
  case pos => rw [if_pos h11]; simp
  rw [if_neg h11]
  by_cases h12 : c = '/'
  case pos => rw [if_pos h12]; split <;> simp
  rw [if_neg h12]
  by_cases h13 : c = '"'
  case pos => rw [if_pos h13]; split <;> simp
  rw [if_neg h13]
  by_cases h14 : c = '\''
  case pos => rw [if_pos h14]; split <;> simp
  rw [if_neg h14]
  by_cases h15 : c = '`'
  case pos => rw [if_pos h15]; split <;> simp
  rw [if_neg h15]
  by_cases h16 : c = '0'
  case pos =>
    rw [if_pos h16]
    subst h16
    have hd : isDigU '0' = true := by decide
    split
    · split
      · exact decNum_text_ne _ _ hd
      · simp
    · split
      · exact decNum_text_ne _ _ hd
      · simp
    · split
      · exact decNum_text_ne _ _ hd
      · simp
    · exact decNum_text_ne _ _ hd
  rw [if_neg h16]
  by_cases h17 : c.isDigit = true
  case pos =>
    rw [if_pos h17]
    exact decNum_text_ne _ _ (by simp [isDigU, h17])
  rw [if_neg h17]
  by_cases h18 : c = '+' ∨ c = '-'
  case pos =>
    rw [if_pos h18]
    split
    · split
      · simp [signNum]
      · simp
    · simp
  rw [if_neg h18]
  by_cases h19 : c.isAlpha = true ∨ c = '_'
  case pos => rw [if_pos h19]; simp
  rw [if_neg h19]
  simp

theorem lexStep_shorter (c : Char) (rest : List Char) :
    (lexStep c rest).2.length ≤ rest.length := by
  have h := congrArg List.length (lexStep_append c rest)
  have hne := lexStep_text_ne c rest
  have hpos : 0 < (lexStep c rest).1.text.length := List.length_pos.mpr hne
  simp only [List.length_append, List.length_cons] at h
  omega

/-- The lexer loop with explicit structural fuel (`lex` supplies the input
length, which is always enough since every step consumes at least one
character). -/
def lexGo : Nat → List Char → List Token
  | _, [] => []
  | 0, _ :: _ => []
  | fuel + 1, c :: rest => (lexStep c rest).1 :: lexGo fuel (lexStep c rest).2

/-- Modelled from the spec: the lexer, producing the token stream of a source
text (spec §4.1 / §2 `[Lexer]`). -/
def lex (l : List Char) : List Token :=
  lexGo l.length l

/-- Concatenated text of a token stream. -/
def tokensText : List Token → List Char
  | [] => []
  | t :: ts => t.text ++ tokensText ts

theorem lexGo_loss_free : ∀ (n : Nat) (l : List Char), l.length ≤ n →
    tokensText (lexGo n l) = l := by
  intro n
  induction n with
  | zero =>
      intro l hl
      have : l = [] := by
        cases l with
        | nil => rfl
        | cons a t => simp at hl
      subst this
      rfl
  | succ n ih =>
      intro l hl
      match l with
      | [] => rfl
      | c :: rest =>
          rw [lexGo]
          rw [tokensText]
          have hlen : (lexStep c rest).2.length ≤ n := by
            have := lexStep_shorter c rest
            simp only [List.length_cons] at hl
            omega
          rw [ih _ hlen]
          exact lexStep_append c rest

/-- Loss-freedom of the modelled lexer: concatenating all token texts
reproduces the source. -/
theorem tokensText_lex (l : List Char) : tokensText (lex l) = l :=
  lexGo_loss_free l.length l le_rfl

/-! ## DOM layer (`dom/node.rs`) -/

/-- The decoded view of a DOM `Key` (`KeyInner`): its `is_valid` flag and its
unescaped string value (the `OnceCell<String>` content). -/
structure KeyM where
  is_valid : Bool
  value : List Char
deriving DecidableEq, Repr

/-- `Key::new`: synthesizes a key from a string, always valid. -/
def KeyM.new (s : List Char) : KeyM := ⟨true, s⟩

/-- `impl PartialEq for Key`: if either key is invalid the comparison is
`false`; otherwise unescaped values are compared. -/
def keyEq (a b : KeyM) : Bool :=
  if !a.is_valid || !b.is_valid then false
  else a.value == b.value

/-- `impl Hash for Key`: invalid keys feed the fixed sentinel `0` to the
hasher, valid keys feed their unescaped value. The hasher input is modelled
as `Sum Nat (List Char)`. -/
def keyHashInput (k : KeyM) : Sum Nat (List Char) :=
  if !k.is_valid then Sum.inl 0 else Sum.inr k.value

/-- `dom::Error::ConflictingKeys { key, other }`. -/
structure ConflictErr where
  key : KeyM
  other : KeyM
deriving DecidableEq, Repr

/-- The `Entries` structure: the `lookup` hash map (modelled as an association
list ordered by first insertion, which refines `HashMap` given that `keyEq`
is the map's equality) and the insertion-ordered `all` list. -/
structure EntriesM (ν : Type) where
  lookup : List (KeyM × ν)
  all : List (KeyM × ν)

/-- `HashMap::get_key_value(&key)`: the stored entry whose key equals the
probe. -/
def lookupFind {ν : Type} (l : List (KeyM × ν)) (k : KeyM) : Option (KeyM × ν) :=
  l.find? (fun p => keyEq p.1 k)

/-- `HashMap::insert(key, node)`: if an equal key is present its *value* is
replaced and the stored key kept; otherwise the binding is appended. -/
def hashMapInsert {ν : Type} (l : List (KeyM × ν)) (k : KeyM) (n : ν) : List (KeyM × ν) :=
  match l with
  | [] => [(k, n)]
  | (k0, n0) :: rest =>
      if keyEq k0 k then (k0, n) :: rest
      else (k0, n0) :: hashMapInsert rest k n

/-- `Entries::add`: `lookup.insert(key.clone(), node.clone());
all.push((key, node))`. -/
def entriesAdd {ν : Type} (es : EntriesM ν) (k : KeyM) (n : ν) : EntriesM ν :=
  { lookup := hashMapInsert es.lookup k n, all := es.all ++ [(k, n)] }

/-- The `Object` fields relevant to entry insertion: its entries and its
deferred-error list. -/
structure ObjectM (ν : Type) where
  entries : EntriesM ν
  errors : List ConflictErr

/-- An empty object. -/
def ObjectM.empty {ν : Type} : ObjectM ν := ⟨⟨[], []⟩, []⟩

/-- `Object::add_entry`: on a conflicting key (per `lookup.get_key_value`)
push a `ConflictingKeys { key, other: existing_key }` error, then
`entries.add(key, node)` in either case. -/
def addEntry {ν : Type} (o : ObjectM ν) (k : KeyM) (n : ν) : ObjectM ν :=
  match lookupFind o.entries.lookup k with
  | some (ek, _) =>
      { entries := entriesAdd o.entries k n, errors := o.errors ++ [⟨k, ek⟩] }
  | none => { entries := entriesAdd o.entries k n, errors := o.errors }

/-- `Object::get`: look the key up in the `lookup` map and return the node. -/
def objectGet {ν : Type} (o : ObjectM ν) (k : KeyM) : Option ν :=
  (lookupFind o.entries.lookup k).map (·.2)

/-- The leading-newline strip of `Str::value`'s backtick branch:
`strip_prefix("\r\n")`, else `strip_prefix('\n')`, else unchanged. -/
def stripLeadNl (s : List Char) : List Char :=
  match s with
  | '\r' :: '\n' :: r => r
  | '\n' :: r => r
  | _ => s

/-- `Str::value`, `StrRepr::Backtick` branch: strip one leading backtick, then
one `\r\n` or (else) one `\n`, then one trailing backtick; no other
processing. -/
def strBacktickValue (text : List Char) : List Char :=
  let s1 := match text with
    | '`' :: r => r
    | _ => text
  let s2 := stripLeadNl s1
  if s2.getLast? = some '`' then s2.dropLast else s2

/-- The strip described by the spec for backtick strings: remove a single
leading `\r\n` or `\n`; a lone `\r` (and everything else) is preserved. -/
def specBacktickStrip (s : List Char) : List Char :=
  match s with
  | '\r' :: '\n' :: r => r
  | '\n' :: r => r
  | _ => s

/-- `IntegerRepr` from `node.rs`. -/
inductive IntegerReprM where
  | Dec | Bin | Oct | Hex
deriving DecidableEq, Repr

/-- `IntegerValue` from `node.rs`: `Negative(i64)` or `Positive(u64)`. -/
inductive IntegerValueM where
  | Negative (i : Int)
  | Positive (n : Nat)
deriving DecidableEq, Repr

/-- Numeric value of a decimal digit string. -/
def digitsVal (l : List Char) : Nat :=
  l.foldl (fun a c => a * 10 + (c.toNat - '0'.toNat)) 0

/-- Numeric value of a digit string in radix `r` (digits per
`char::to_digit`). -/
def digitsValR (r : Nat) (l : List Char) : Nat :=
  l.foldl (fun a c => a * r + ((charToDigit c).getD 0)) 0

/-- Digit-string part of `u64::from_str`: one or more ASCII digits whose value
fits in 64 bits. -/
def parseU64Digits (t : List Char) : Option Nat :=
  if t ≠ [] ∧ t.all Char.isDigit then
    if digitsVal t < 2 ^ 64 then some (digitsVal t) else none
  else none

/-- Rust `u64::from_str`: optional `+`, one or more ASCII digits, value must
fit in 64 bits; anything else is an error. -/
def parseU64 (s : List Char) : Option Nat :=
  if s.head? = some '+' then parseU64Digits s.tail else parseU64Digits s

/-- Rust `i64::from_str`: optional sign, digits, value in
`[-2^63, 2^63 - 1]`. -/
def parseI64 (s : List Char) : Option Int :=
  match s with
  | '+' :: t =>
      if t ≠ [] ∧ t.all Char.isDigit ∧ digitsVal t ≤ 2 ^ 63 - 1 then
        some (digitsVal t) else none
  | '-' :: t =>
      if t ≠ [] ∧ t.all Char.isDigit ∧ digitsVal t ≤ 2 ^ 63 then
        some (-(digitsVal t : Int)) else none
  | t =>
      if t ≠ [] ∧ t.all Char.isDigit ∧ digitsVal t ≤ 2 ^ 63 - 1 then
        some (digitsVal t) else none

/-- Digit-string part of `u64::from_str_radix(r)`. -/
def fromStrRadixDigits (r : Nat) (t : List Char) : Option Nat :=
  if t ≠ [] ∧ t.all (isDigitR r) then
    if digitsValR r t < 2 ^ 64 then some (digitsValR r t) else none
  else none

/-- Rust `u64::from_str_radix(r)`: optional `+`, digits valid in radix `r`,
value must fit in 64 bits. -/
def fromStrRadixU64 (r : Nat) (s : List Char) : Option Nat :=
  if s.head? = some '+' then fromStrRadixDigits r s.tail else fromStrRadixDigits r s

/-- Rust `str::trim_start_matches(pat)` for a two-character pattern: removes
*all* leading repetitions of the pattern. -/
def trimPrefTwo (a b : Char) (l : List Char) : List Char :=
  match l with
  | x :: y :: r => if x = a ∧ y = b then trimPrefTwo a b r else l
  | _ => l

/-- `Integer::value`: strip underscores, then parse according to the
representation; decimal keeps the sign of the original text (negative texts
parse as `i64`, others as `u64`); binary/octal/hex trim their prefix and
parse as `u64`; every parse failure collapses to `0` via
`unwrap_or_default`. No error is recorded anywhere in this path. -/
def integerValueOf (repr : IntegerReprM) (text : List Char) : IntegerValueM :=
  match repr with
  | .Dec =>
      if text.head? = some '-' then
        .Negative ((parseI64 (text.filter (· ≠ '_'))).getD 0)
      else .Positive ((parseU64 (text.filter (· ≠ '_'))).getD 0)
  | .Bin =>
      .Positive ((fromStrRadixU64 2 (trimPrefTwo '0' 'b' (text.filter (· ≠ '_')))).getD 0)
  | .Oct =>
      .Positive ((fromStrRadixU64 8 (trimPrefTwo '0' 'o' (text.filter (· ≠ '_')))).getD 0)
  | .Hex =>
      .Positive ((fromStrRadixU64 16 (trimPrefTwo '0' 'x' (text.filter (· ≠ '_')))).getD 0)

/-- `Integer::validate_impl`: `Ok` iff the node's deferred-error list is
empty (the decoded value is not even consulted). -/
def integerValidateImpl {α : Type} (errors : List α) : Bool :=
  errors.isEmpty

/-! ## Loss-freedom invariant -/

/-- Text of the peeked token, if any. -/
def currentText (st : PState) : List Char :=
  match st.current with
  | some t => t.text
  | none => []

/-- Concatenated text of the token events in a builder event list. -/
def emittedText : List Event → List Char
  | [] => []
  | .token _ t :: es => t ++ emittedText es
  | .startNode _ :: es => emittedText es
  | .finishNode :: es => emittedText es

/-- The total text owned by a parser state: emitted text, then the peeked
token, then the unread lexer tokens. Every parser operation preserves it. -/
def resText (st : PState) : List Char :=
  emittedText st.events ++ currentText st ++ tokensText st.tokens

theorem emittedText_append (es es' : List Event) :
    emittedText (es ++ es') = emittedText es ++ emittedText es' := by
  induction es with
  | nil => rfl
  | cons e es ih =>
      cases e <;> simp [emittedText, ih]

theorem resx_startN (k : SyntaxKind) (st : PState) :
    resText (startN k st) = resText st := by
  simp [resText, startN, emittedText_append, emittedText, currentText]

theorem resx_finishN (st : PState) : resText (finishN st) = resText st := by
  simp [resText, finishN, emittedText_append, emittedText, currentText]

theorem resx_addError (st : PState) (e : PError) :
    resText (addError st e) = resText st := by
  unfold addError
  split
  · split <;> rfl
  · rfl

theorem resx_addPointErrors (msg : String) (base : Nat) (idxs : List Nat) (st : PState) :
    resText (addPointErrors msg base idxs st) = resText st := by
  induction idxs generalizing st with
  | nil => rfl
  | cons i idxs ih =>
      simp only [addPointErrors, List.foldl_cons]
      rw [show List.foldl (fun s j => addError s ⟨base + j, base + j, msg⟩) (addError st ⟨base + i, base + i, msg⟩) idxs = addPointErrors msg base idxs (addError st ⟨base + i, base + i, msg⟩) from rfl]
      rw [ih, resx_addError]

theorem addError_current (st : PState) (e : PError) :
    (addError st e).current = st.current := by
  unfold addError; split
  · split <;> rfl
  · rfl

theorem addError_tokens (st : PState) (e : PError) :
    (addError st e).tokens = st.tokens := by
  unfold addError; split
  · split <;> rfl
  · rfl

theorem addError_events (st : PState) (e : PError) :
    (addError st e).events = st.events := by
  unfold addError; split
  · split <;> rfl
  · rfl

theorem addPointErrors_current (msg : String) (base : Nat) (idxs : List Nat) (st : PState) :
    (addPointErrors msg base idxs st).current = st.current := by
  induction idxs generalizing st with
  | nil => rfl
  | cons i idxs ih =>
      simp only [addPointErrors, List.foldl_cons]
      rw [show List.foldl (fun s j => addError s ⟨base + j, base + j, msg⟩) (addError st ⟨base + i, base + i, msg⟩) idxs = addPointErrors msg base idxs (addError st ⟨base + i, base + i, msg⟩) from rfl]
      rw [ih, addError_current]

theorem addPointErrors_events (msg : String) (base : Nat) (idxs : List Nat) (st : PState) :
    (addPointErrors msg base idxs st).events = st.events := by
  induction idxs generalizing st with
  | nil => rfl
  | cons i idxs ih =>
      simp only [addPointErrors, List.foldl_cons]
      rw [show List.foldl (fun s j => addError s ⟨base + j, base + j, msg⟩) (addError st ⟨base + i, base + i, msg⟩) idxs = addPointErrors msg base idxs (addError st ⟨base + i, base + i, msg⟩) from rfl]
      rw [ih, addError_events]

theorem addPointErrors_tokens (msg : String) (base : Nat) (idxs : List Nat) (st : PState) :
    (addPointErrors msg base idxs st).tokens = st.tokens := by
  induction idxs generalizing st with
  | nil => rfl
  | cons i idxs ih =>
      simp only [addPointErrors, List.foldl_cons]
      rw [show List.foldl (fun s j => addError s ⟨base + j, base + j, msg⟩) (addError st ⟨base + i, base + i, msg⟩) idxs = addPointErrors msg base idxs (addError st ⟨base + i, base + i, msg⟩) from rfl]
      rw [ih, addError_tokens]

theorem resx_emitToken (k : SyntaxKind) (t : List Char) (st : PState) :
    resText (emitToken k t st) = emittedText st.events ++ t ++ tokensText st.tokens := by
  simp [resText, emitToken, emittedText_append, emittedText, currentText]

theorem resx_nextTokenGo : ∀ (toks : List Token) (st : PState),
    st.tokens = toks → st.current = none →
    resText (nextTokenGo toks st) = resText st := by
  intro toks
  induction toks with
  | nil =>
      intro st htok hcur
      simp [nextTokenGo, resText, currentText, hcur, htok, tokensText]
  | cons t rest ih =>
      intro st htok hcur
      rw [nextTokenGo.eq_def]
      dsimp only
      cases hk : t.kind
      case COMMENT_LINE =>
        rw [ih _ (by simp [emitToken, addPointErrors_tokens]) (by simp [emitToken])]
        rw [resx_emitToken, addPointErrors_events, addPointErrors_tokens]
        simp [resText, currentText, hcur, htok, tokensText]
      case COMMENT_BLOCK =>
        rw [ih _ (by simp [emitToken, addPointErrors_tokens]) (by simp [emitToken])]
        rw [resx_emitToken, addPointErrors_events, addPointErrors_tokens]
        simp [resText, currentText, hcur, htok, tokensText]
      case WHITESPACE =>
        rw [ih _ (by simp [emitToken]) (by simp [emitToken])]
        rw [resx_emitToken]
        simp [resText, currentText, hcur, htok, tokensText]
      case NEWLINE =>
        rw [ih _ (by simp [emitToken]) (by simp [emitToken])]
        rw [resx_emitToken]
        simp [resText, currentText, hcur, htok, tokensText]
      case ERROR =>
        rw [ih _ (by simp [addError_tokens, emitToken]) (by simp [addError_current, emitToken])]
        rw [resx_addError, resx_emitToken]
        simp [resText, currentText, hcur, htok, tokensText]
      all_goals simp [resText, currentText, hcur, htok, tokensText]

theorem resx_nextToken (st : PState) (h : st.current = none) :
    resText (nextToken st) = resText st := by
  unfold nextToken
  rw [resx_nextTokenGo st.tokens { st with current := none } rfl rfl]
  simp [resText, currentText, h]

theorem resx_peek (st : PState) : resText (peekToken st).2 = resText st := by
  unfold peekToken
  split
  · rfl
  · next h => exact resx_nextToken st h

theorem peek_some_current (st : PState) (t : Token) (st₁ : PState)
    (h : peekToken st = (some t, st₁)) : st₁.current = some t := by
  unfold peekToken at h
  split at h
  · next t' ht =>
      simp only [Prod.mk.injEq, Option.some.injEq] at h
      obtain ⟨rfl, rfl⟩ := h
      exact ht
  · simp only [Prod.mk.injEq] at h
    obtain ⟨h1, rfl⟩ := h
    exact h1

theorem resx_mustPeek (st : PState) : resText (mustPeekToken st).2 = resText st := by
  unfold mustPeekToken
  rcases hp : peekToken st with ⟨t?, st₁⟩
  have := resx_peek st
  rw [hp] at this
  cases t? <;> simp [resx_addError, this]

theorem mustPeek_some_current (st : PState) (t : Token) (st₁ : PState)
    (h : mustPeekToken st = (some t, st₁)) : st₁.current = some t := by
  unfold mustPeekToken at h
  rcases hp : peekToken st with ⟨t?, st'⟩
  rw [hp] at h
  cases t? with
  | some t' =>
      simp only [Prod.mk.injEq, Option.some.injEq] at h
      obtain ⟨rfl, rfl⟩ := h
      exact peek_some_current st _ _ hp
  | none => simp at h

theorem resx_mustPeekEof (st : PState) : resText (mustPeekEof st).2 = resText st := by
  unfold mustPeekEof
  rcases hp : peekToken st with ⟨t?, st₁⟩
  have := resx_peek st
  rw [hp] at this
  cases t? <;> simp [resx_addError, this]

theorem resx_consumeCurrent (st : PState) :
    resText (consumeCurrent st).2 = resText st := by
  unfold consumeCurrent
  rcases hp : peekToken st with ⟨t?, st₁⟩
  have hres := resx_peek st
  rw [hp] at hres
  cases t? with
  | none => simpa using hres
  | some t =>
      have hc := peek_some_current st t st₁ hp
      simp only
      rw [resx_emitToken]
      rw [← hres]
      simp [resText, currentText, hc]

theorem resx_consumeError (msg : String) (st : PState) :
    resText (consumeErrorToken msg st).2 = resText st := by
  unfold consumeErrorToken
  rcases hc : (addError st ⟨st.tokenStart, st.tokenEnd, msg⟩).current with _ | t
  · simp only [hc]
    rw [resx_emitToken]
    rw [← resx_addError st ⟨st.tokenStart, st.tokenEnd, msg⟩]
    simp [resText, currentText, hc, addError_events, addError_tokens]
  · simp only [hc]
    rw [resx_emitToken]
    rw [← resx_addError st ⟨st.tokenStart, st.tokenEnd, msg⟩]
    simp [resText, currentText, hc, addError_events, addError_tokens]

theorem resx_mustTokenOr (k : SyntaxKind) (msg : String) (st : PState) :
    resText (mustTokenOr k msg st).2 = resText st := by
  unfold mustTokenOr
  rcases hp : mustPeekToken st with ⟨t?, st₁⟩
  have hres := resx_mustPeek st
  rw [hp] at hres
  cases t? with
  | none => simpa using hres
  | some t =>
      simp only
      split
      · rw [resx_consumeCurrent]; exact hres
      · rw [resx_addError]; exact hres

set_option maxHeartbeats 2000000 in
theorem resx_parseFns (fuel : Nat) :
    (∀ st, resText (parseRoot fuel st).2 = resText st) ∧
    (∀ st, resText (parseAnnos fuel st).2 = resText st) ∧
    (∀ st, resText (annosLoop fuel st).2 = resText st) ∧
    (∀ st, resText (parseAnnoEntry fuel st).2 = resText st) ∧
    (∀ st, resText (parseAnnoValue fuel st).2 = resText st) ∧
    (∀ st, resText (parseEntry fuel st).2 = resText st) ∧
    (∀ st, resText (parseValue fuel st).2 = resText st) ∧
    (∀ k st, resText (parseValueWithAnnos k fuel st).2 = resText st) ∧
    (∀ k s0 e0 b st, resText (parseVWATail k s0 e0 b fuel st).2 = resText st) ∧
    (∀ st, resText (parseObject fuel st).2 = resText st) ∧
    (∀ st, resText (objectLoop fuel st).2 = resText st) ∧
    (∀ st, resText (parseArray fuel st).2 = resText st) ∧
    (∀ st, resText (arrayLoop fuel st).2 = resText st) ∧
    (∀ st, resText (parseKey fuel st).2 = resText st) := by
  induction fuel with
  | zero =>
      refine ⟨?_, ?_, ?_, ?_, ?_, ?_, ?_, ?_, ?_, ?_, ?_, ?_, ?_, ?_⟩ <;>
        intros <;> rfl
  | succ n ih =>
      obtain ⟨ihRoot, ihAnnos, ihALoop, ihAEntry, ihAValue, ihEntry, ihValue,
        ihVWA, ihTail, ihObj, ihOLoop, ihArr, ihArrLoop, ihKey⟩ := ih
      refine ⟨?_, ?_, ?_, ?_, ?_, ?_, ?_, ?_, ?_, ?_, ?_, ?_, ?_, ?_⟩
      -- parseRoot
      · intro st
        rw [parseRoot.eq_def]; dsimp only
        rcases h1 : parseAnnos n st with ⟨r1, st1⟩
        have e1 := ihAnnos st; rw [h1] at e1; dsimp only at e1
        cases r1 <;> dsimp only
        · rcases h2 : parseValue n (startN VALUE st1) with ⟨r2, st2⟩
          have e2 := ihValue (startN VALUE st1); rw [h2] at e2; dsimp only at e2
          cases r2 <;> dsimp only <;>
            simp only [resx_mustPeekEof, resx_finishN, e2, resx_startN, e1]
        · exact e1
        · exact e1
      -- parseAnnos
      · intro st
        rw [parseAnnos.eq_def]; dsimp only
        rcases hp : peekToken st with ⟨t?, st1⟩
        have ep := resx_peek st; rw [hp] at ep; dsimp only at ep
        cases t? with
        | none => exact ep
        | some t =>
            dsimp only
            split
            · rcases h1 : annosLoop n (startN ANNOS st1) with ⟨r1, st2⟩
              have e1 := ihALoop (startN ANNOS st1); rw [h1] at e1; dsimp only at e1
              cases r1 <;> dsimp only <;>
                simp only [resx_finishN, e1, resx_startN, ep]
            · exact ep
      -- annosLoop
      · intro st
        rw [annosLoop.eq_def]; dsimp only
        rcases hp : peekToken st with ⟨t?, st1⟩
        have ep := resx_peek st; rw [hp] at ep; dsimp only at ep
        cases t? with
        | none => exact ep
        | some t =>
            dsimp only
            split
            · rcases h1 : parseAnnoEntry n (startN ENTRY st1) with ⟨r1, st2⟩
              have e1 := ihAEntry (startN ENTRY st1); rw [h1] at e1; dsimp only at e1
              cases r1 <;> dsimp only
              · rw [ihALoop (finishN st2), resx_finishN, e1, resx_startN]; exact ep
              · simp only [resx_finishN, e1, resx_startN, ep]
              · simp only [resx_finishN, e1, resx_startN, ep]
            · exact ep
      -- parseAnnoEntry
      · intro st
        rw [parseAnnoEntry.eq_def]; dsimp only
        rcases h1 : mustTokenOr AT "expected \"@\"" st with ⟨r1, st1⟩
        have e1 := resx_mustTokenOr AT "expected \"@\"" st; rw [h1] at e1; dsimp only at e1
        cases r1 <;> dsimp only
        · rcases h2 : parseKey n (startN KEY st1) with ⟨r2, st2⟩
          have e2 := ihKey (startN KEY st1); rw [h2] at e2; dsimp only at e2
          cases r2 <;> dsimp only
          · rcases hp : peekToken (finishN st2) with ⟨t?, st3⟩
            have ep := resx_peek (finishN st2); rw [hp] at ep; dsimp only at ep
            cases t? with
            | none =>
                dsimp only
                rw [ep, resx_finishN, e2, resx_startN]; exact e1
            | some t =>
                dsimp only
                split
                · rcases h3 : parseAnnoValue n (startN VALUE st3) with ⟨r3, st4⟩
                  have e3 := ihAValue (startN VALUE st3); rw [h3] at e3; dsimp only at e3
                  cases r3 <;> dsimp only <;>
                    simp only [resx_finishN, e3, resx_startN, ep, e2, e1]
                · rw [ep, resx_finishN, e2, resx_startN]; exact e1
          · simp only [resx_finishN, e2, resx_startN, e1]
          · simp only [resx_finishN, e2, resx_startN, e1]
        · exact e1
        · exact e1
      -- parseAnnoValue
      · intro st
        rw [parseAnnoValue.eq_def]; dsimp only
        rcases h1 : mustTokenOr PARENTHESES_START "expected \"(\"" st with ⟨r1, st1⟩
        have e1 := resx_mustTokenOr PARENTHESES_START "expected \"(\"" st; rw [h1] at e1; dsimp only at e1
        cases r1 <;> dsimp only
        · rcases h2 : parseValue n (startN VALUE st1) with ⟨r2, st2⟩
          have e2 := ihValue (startN VALUE st1); rw [h2] at e2; dsimp only at e2
          cases r2 <;> dsimp only <;>
            simp only [resx_mustTokenOr, resx_finishN, e2, resx_startN, e1]
        · exact e1
        · exact e1
      -- parseEntry
      · intro st
        rw [parseEntry.eq_def]; dsimp only
        rcases h1 : parseKey n (startN KEY st) with ⟨r1, st1⟩
        have e1 := ihKey (startN KEY st); rw [h1] at e1; dsimp only at e1
        cases r1 <;> dsimp only
        · rcases h2 : mustTokenOr COLON "expected \":\"" (finishN st1) with ⟨r2, st2⟩
          have e2 := resx_mustTokenOr COLON "expected \":\"" (finishN st1); rw [h2] at e2; dsimp only at e2
          cases r2 <;> dsimp only
          · rcases h3 : parseValueWithAnnos BRACE_END n (startN VALUE st2) with ⟨r3, st3⟩
            have e3 := ihVWA BRACE_END (startN VALUE st2); rw [h3] at e3; dsimp only at e3
            cases r3 <;> dsimp only <;>
              simp only [resx_finishN, e3, resx_startN, e2, e1]
          · simp only [e2, resx_finishN, e1, resx_startN]
          · simp only [e2, resx_finishN, e1, resx_startN]
        · simp only [resx_finishN, e1, resx_startN]
        · simp only [resx_finishN, e1, resx_startN]
      -- parseValue
      · intro st
        rw [parseValue.eq_def]; dsimp only
        rcases h1 : mustPeekToken st with ⟨t?, st1⟩
        have e1 := resx_mustPeek st; rw [h1] at e1; dsimp only at e1
        cases t? with
        | none => exact e1
        | some t =>
            dsimp only
            cases t.kind <;> dsimp only <;>
              first
                | (rcases h2 : parseObject n (startN OBJECT st1) with ⟨r2, st2⟩
                   have e2 := ihObj (startN OBJECT st1); rw [h2] at e2; dsimp only at e2
                   dsimp only
                   simp only [resx_finishN, e2, resx_startN, e1])
                | (rcases h2 : parseArray n (startN ARRAY st1) with ⟨r2, st2⟩
                   have e2 := ihArr (startN ARRAY st1); rw [h2] at e2; dsimp only at e2
                   dsimp only
                   simp only [resx_finishN, e2, resx_startN, e1])
                | (split <;>
                     first
                       | simp only [resx_consumeError, resx_consumeCurrent, e1]
                       | (split <;>
                            simp only [resx_consumeError, resx_consumeCurrent, e1]))
                | simp only [resx_consumeCurrent, resx_addPointErrors, e1]
                | simp only [resx_consumeError, e1]
      -- parseValueWithAnnos
      · intro k st
        rw [parseValueWithAnnos.eq_def]; dsimp only
        rcases h1 : parseValue n st with ⟨r1, st1⟩
        have e1 := ihValue st; rw [h1] at e1; dsimp only at e1
        cases r1 <;> dsimp only
        · rcases hp : peekToken st1 with ⟨t?, st2⟩
          have ep := resx_peek st1; rw [hp] at ep; dsimp only at ep
          cases t? with
          | none =>
              dsimp only
              rw [ihTail k st1.tokenStart st1.tokenEnd false st2, ep]; exact e1
          | some t =>
              dsimp only
              split
              · rcases h2 : consumeCurrent st2 with ⟨r2, st3⟩
                have e2 := resx_consumeCurrent st2; rw [h2] at e2; dsimp only at e2
                cases r2 <;> dsimp only
                · rw [ihTail k st1.tokenStart st1.tokenEnd true st3, e2, ep]; exact e1
                · rw [e2, ep]; exact e1
                · rw [e2, ep]; exact e1
              · rw [ihTail k st1.tokenStart st1.tokenEnd false st2, ep]; exact e1
        · exact e1
        · exact e1
      -- parseVWATail
      · intro k s0 e0 b st
        rw [parseVWATail.eq_def]; dsimp only
        rcases h1 : parseAnnos n st with ⟨r1, st1⟩
        have e1 := ihAnnos st; rw [h1] at e1; dsimp only at e1
        cases r1 <;> dsimp only
        · rcases hp : peekToken st1 with ⟨t?, st2⟩
          have ep := resx_peek st1; rw [hp] at ep; dsimp only at ep
          cases t? with
          | none => dsimp only; rw [ep]; exact e1
          | some t =>
              dsimp only
              split
              · rw [resx_addError, ep]; exact e1
              · rw [ep]; exact e1
        · exact e1
        · exact e1
      -- parseObject
      · intro st
        rw [parseObject.eq_def]; dsimp only
        rcases h1 : mustTokenOr BRACE_START "expected \"\x7b\"" st with ⟨r1, st1⟩
        have e1 := resx_mustTokenOr BRACE_START "expected \"\x7b\"" st; rw [h1] at e1; dsimp only at e1
        cases r1 <;> dsimp only
        · rcases h2 : parseAnnos n st1 with ⟨r2, st2⟩
          have e2 := ihAnnos st1; rw [h2] at e2; dsimp only at e2
          cases r2 <;> dsimp only
          · rw [ihOLoop st2, e2]; exact e1
          · rw [e2]; exact e1
          · rw [e2]; exact e1
        · exact e1
        · exact e1
      -- objectLoop
      · intro st
        rw [objectLoop.eq_def]; dsimp only
        rcases h1 : mustPeekToken st with ⟨t?, st1⟩
        have e1 := resx_mustPeek st; rw [h1] at e1; dsimp only at e1
        cases t? with
        | none => exact e1
        | some t =>
            dsimp only
            cases t.kind <;> dsimp only <;>
              first
                | (simp only [resx_consumeCurrent]; exact e1)
                | (rcases h2 : parseAnnos n (addError st1 ⟨st1.tokenStart, st1.tokenEnd, "unexpected \"@\""⟩) with ⟨r2, st2⟩
                   have e2 := ihAnnos (addError st1 ⟨st1.tokenStart, st1.tokenEnd, "unexpected \"@\""⟩)
                   rw [h2] at e2; dsimp only at e2
                   cases r2 <;> dsimp only
                   · rw [ihOLoop st2, e2, resx_addError]; exact e1
                   · rw [e2, resx_addError]; exact e1
                   · rw [e2, resx_addError]; exact e1)
                | (rcases h2 : parseEntry n (startN ENTRY st1) with ⟨r2, st2⟩
                   have e2 := ihEntry (startN ENTRY st1); rw [h2] at e2; dsimp only at e2
                   dsimp only
                   rw [ihOLoop (finishN st2), resx_finishN, e2, resx_startN]; exact e1)
      -- parseArray
      · intro st
        rw [parseArray.eq_def]; dsimp only
        rcases h1 : mustTokenOr BRACKET_START "expected \"[\"" st with ⟨r1, st1⟩
        have e1 := resx_mustTokenOr BRACKET_START "expected \"[\"" st; rw [h1] at e1; dsimp only at e1
        cases r1 <;> dsimp only
        · rcases h2 : parseAnnos n st1 with ⟨r2, st2⟩
          have e2 := ihAnnos st1; rw [h2] at e2; dsimp only at e2
          dsimp only
          rw [ihArrLoop st2, e2]; exact e1
        · exact e1
        · exact e1
      -- arrayLoop
      · intro st
        rw [arrayLoop.eq_def]; dsimp only
        rcases h1 : mustPeekToken st with ⟨t?, st1⟩
        have e1 := resx_mustPeek st; rw [h1] at e1; dsimp only at e1
        cases t? with
        | none => exact e1
        | some t =>
            dsimp only
            cases t.kind <;> dsimp only <;>
              first
                | (simp only [resx_consumeCurrent]; exact e1)
                | (rcases h2 : parseAnnos n (addError st1 ⟨st1.tokenStart, st1.tokenEnd, "unexpected \"@\""⟩) with ⟨r2, st2⟩
                   have e2 := ihAnnos (addError st1 ⟨st1.tokenStart, st1.tokenEnd, "unexpected \"@\""⟩)
                   rw [h2] at e2; dsimp only at e2
                   cases r2 <;> dsimp only
                   · rw [ihArrLoop st2, e2, resx_addError]; exact e1
                   · rw [e2, resx_addError]; exact e1
                   · rw [e2, resx_addError]; exact e1)
                | (rcases h2 : parseValueWithAnnos BRACKET_END n (startN VALUE st1) with ⟨r2, st2⟩
                   have e2 := ihVWA BRACKET_END (startN VALUE st1); rw [h2] at e2; dsimp only at e2
                   dsimp only
                   rw [ihArrLoop (finishN st2), resx_finishN, e2, resx_startN]; exact e1)
      -- parseKey
      · intro st
        rw [parseKey.eq_def]; dsimp only
        rcases h1 : mustPeekToken st with ⟨t?, st1⟩
        have e1 := resx_mustPeek st; rw [h1] at e1; dsimp only at e1
        cases t? with
        | none => exact e1
        | some t =>
            dsimp only
            cases t.kind <;> dsimp only <;>
              first
                | (split <;>
                     first
                       | exact e1
                       | simp only [resx_consumeError, resx_consumeCurrent, e1]
                       | (split <;>
                            first
                              | exact e1
                              | simp only [resx_consumeError, resx_consumeCurrent, e1]))
                | simp only [resx_consumeCurrent, resx_addPointErrors, e1]
                | simp only [resx_consumeError, e1]

theorem textList_append (a b : List GElem) :
    GElem.textList (a ++ b) = GElem.textList a ++ GElem.textList b := by
  induction a with
  | nil => rfl
  | cons e es ih => simp [GElem.textList, ih]

/-- The text of an event: token events carry text, structural events none. -/
def eventText : Event → List Char
  | .token _ t => t
  | .startNode _ => []
  | .finishNode => []

theorem replayEvent_text (b : BState) (e : Event) :
    GElem.textList (replayEvent b e).children =
      GElem.textList b.children ++ eventText e := by
  cases e with
  | startNode k => simp [replayEvent, eventText]
  | token k t =>
      simp [replayEvent, eventText, textList_append, GElem.textList, GElem.textOf]
  | finishNode =>
      unfold replayEvent
      dsimp only
      split
      · simp [eventText]
      · next k i ps _ =>
          simp only [eventText, List.append_nil]
          rw [textList_append]
          simp [GElem.textList, GElem.textOf]
          conv_rhs => rw [← List.take_append_drop i b.children]
          rw [textList_append]

theorem replayEvents_text (es : List Event) : ∀ (b : BState),
    GElem.textList (replayEvents b es).children =
      GElem.textList b.children ++ emittedText es := by
  induction es with
  | nil => intro b; simp [replayEvents, emittedText]
  | cons e es ih =>
      intro b
      rw [replayEvents]
      rw [ih (replayEvent b e), replayEvent_text]
      cases e <;> simp [eventText, emittedText]

theorem finishGreen_text (events : List Event) (root : GElem)
    (h : finishGreen events = some root) :
    GElem.textOf root = emittedText events := by
  unfold finishGreen at h
  have hr := replayEvents_text events ⟨[], []⟩
  rcases hc : (replayEvents ⟨[], []⟩ events).children with _ | ⟨e, rest⟩
  · rw [hc] at h; simp at h
  · rw [hc] at h hr
    rcases rest with _ | ⟨e2, rest'⟩
    · cases e with
      | node k cs =>
          simp only [Option.some.injEq] at h
          subst h
          simpa [GElem.textList] using hr
      | token k t => simp at h
    · simp at h

theorem runParser_resText (fuel : Nat) (ts : List Token) :
    resText (runParser fuel ts).2 = tokensText ts := by
  unfold runParser
  dsimp only
  rcases h : parseRoot fuel (startN ROOT ⟨ts, none, 0, 0, [], []⟩) with ⟨r, st⟩
  have e := (resx_parseFns fuel).1 (startN ROOT ⟨ts, none, 0, 0, [], []⟩)
  rw [h] at e; dsimp only at e
  try rw [h]
  dsimp only
  rw [resx_finishN, e, resx_startN]
  simp [resText, currentText, emittedText]

/-- C1 (amended): for every source string and any fuel, the concatenated text
of the tokens emitted into the green tree is a prefix of the source, and when
rowan's `finish` yields a root its full token text equals that emitted text.
Strict equality with the source can fail: a token that the parser peeked but
never consumed (plus everything after it) is absent from the tree. -/
theorem c1_token_text_initial_segment (fuel : Nat) (s : String) :
    (∃ rest, emittedText (runParser fuel (lex s.data)).2.events ++ rest = s.data) ∧
    (match (parseGreen fuel (lex s.data)).1 with
     | some root => ∃ rest, GElem.textOf root ++ rest = s.data
     | none => True) := by
  have hres := runParser_resText fuel (lex s.data)
  rw [tokensText_lex] at hres
  have hpre : ∃ rest,
      emittedText (runParser fuel (lex s.data)).2.events ++ rest = s.data := by
    refine ⟨currentText (runParser fuel (lex s.data)).2 ++
      tokensText (runParser fuel (lex s.data)).2.tokens, ?_⟩
    rw [← List.append_assoc]
    exact hres
  refine ⟨hpre, ?_⟩
  rcases hg : (parseGreen fuel (lex s.data)).1 with _ | root
  · trivial
  · dsimp only
    have : finishGreen (runParser fuel (lex s.data)).2.events = some root := by
      unfold parseGreen at hg
      rcases hr : runParser fuel (lex s.data) with ⟨r, st⟩
      rw [hr] at hg
      simpa using hg
    rw [finishGreen_text _ _ this]
    exact hpre

/-- C1 counterexample: on the input `1 2` the parser stops at "expected EOF"
with the token `2` peeked but never consumed, so the green tree's text is
`"1 "`, not the whole source — loss-freedom as claimed fails. -/
theorem c1_cex :
    ((parseGreen 40 (lex "1 2".data)).1.map GElem.textOf = some "1 ".data) ∧
    "1 ".data ≠ "1 2".data := by
  constructor
  · rfl
  · decide

/-- C4 (code bug): on the input `@` the "unexpected EOF" error return unwinds
out of `parse_annos` before the `ANNOS` node is finished; `Parser::parse`'s
single `finish_node` then closes `ANNOS` instead of `ROOT`, and rowan's
`finish` returns the `ANNOS` node as the green root — the root is not `ROOT`.
(The claim fails even more strongly on `{+1:1}`, where the entry loop
re-peeks the unconsumed `+`-signed key token forever and `parse` never
returns.) -/
theorem c4_lone_at_root_kind :
    ((parseGreen 40 (lex "@".data)).1.map GElem.kindOf = some ANNOS) ∧
    ANNOS ≠ ROOT ∧
    (runParser 40 (lex "@".data)).2.errors =
      [⟨1, 1, "unexpected EOF"⟩] := by
  refine ⟨rfl, by decide, rfl⟩

/-- C2 counterexample: inserting `(a,1)` then `(a,2)` and looking `a` up
returns the *second* value, because `HashMap::insert` replaces the mapped
value on duplicates — not the first value as claimed. -/
theorem c2_cex :
    objectGet
      (addEntry (addEntry (ObjectM.empty (ν := Nat)) (KeyM.new "a".data) 1)
        (KeyM.new "a".data) 2)
      (KeyM.new "a".data) = some 2 ∧
    (some 2 ≠ some (1 : Nat)) := by
  refine ⟨rfl, by decide⟩

/-- C2 (amended): adding two entries whose valid keys have equal unescaped
values appends both to `all` in insertion order and records exactly one
`ConflictingKeys { key: second, other: first }` error; the `lookup` map keeps
the first key but maps it to the *last* value, so `Object::get` returns the
value of the last duplicate entry. -/
theorem c2_duplicate_key_last_value_wins {ν : Type} (k1 k2 q : KeyM) (v1 v2 : ν)
    (h1 : k1.is_valid = true) (h2 : k2.is_valid = true) (hq : q.is_valid = true)
    (h12 : k1.value = k2.value) (hqv : q.value = k1.value) :
    (addEntry (addEntry (ObjectM.empty (ν := ν)) k1 v1) k2 v2).entries.all
        = [(k1, v1), (k2, v2)] ∧
    (addEntry (addEntry (ObjectM.empty (ν := ν)) k1 v1) k2 v2).entries.lookup
        = [(k1, v2)] ∧
    (addEntry (addEntry (ObjectM.empty (ν := ν)) k1 v1) k2 v2).errors
        = [⟨k2, k1⟩] ∧
    objectGet (addEntry (addEntry (ObjectM.empty (ν := ν)) k1 v1) k2 v2) q
        = some v2 := by
  have hk12 : keyEq k1 k2 = true := by
    simp [keyEq, h1, h2, h12]
  have hk1q : keyEq k1 q = true := by
    simp [keyEq, h1, hq, hqv]
  simp [addEntry, ObjectM.empty, lookupFind, entriesAdd, hashMapInsert, objectGet,
    List.find?, hk12, hk1q]

/-- C2 witness at `{"a":1,"a":2}`-shaped inputs. -/
theorem c2_witness :
    (addEntry (addEntry (ObjectM.empty (ν := Nat)) (KeyM.new "a".data) 1)
        (KeyM.new "a".data) 2).entries.all
      = [(KeyM.new "a".data, 1), (KeyM.new "a".data, 2)] ∧
    (addEntry (addEntry (ObjectM.empty (ν := Nat)) (KeyM.new "a".data) 1)
        (KeyM.new "a".data) 2).entries.lookup
      = [(KeyM.new "a".data, 2)] ∧
    (addEntry (addEntry (ObjectM.empty (ν := Nat)) (KeyM.new "a".data) 1)
        (KeyM.new "a".data) 2).errors
      = [⟨KeyM.new "a".data, KeyM.new "a".data⟩] ∧
    objectGet (addEntry (addEntry (ObjectM.empty (ν := Nat)) (KeyM.new "a".data) 1)
        (KeyM.new "a".data) 2) (KeyM.new "a".data)
      = some 2 :=
  c2_duplicate_key_last_value_wins (KeyM.new "a".data) (KeyM.new "a".data)
    (KeyM.new "a".data) 1 2 rfl rfl rfl rfl rfl

/-- C9: `Key` equality is not reflexive for invalid keys — an invalid key is
unequal even to itself — every invalid key feeds the fixed sentinel `0` to
the hasher, and `Key::new` always produces a valid key. -/
theorem c9_invalid_key_eq (k : KeyM) (s : List Char) (h : k.is_valid = false) :
    keyEq k k = false ∧ keyHashInput k = Sum.inl 0 ∧ (KeyM.new s).is_valid = true := by
  refine ⟨?_, ?_, rfl⟩ <;> simp [keyEq, keyHashInput, h]

/-- C9 witness at a concrete invalid key. -/
theorem c9_witness :
    keyEq ⟨false, "x".data⟩ ⟨false, "x".data⟩ = false ∧
    keyHashInput ⟨false, "x".data⟩ = Sum.inl 0 ∧
    (KeyM.new "a".data).is_valid = true :=
  c9_invalid_key_eq ⟨false, "x".data⟩ "a".data rfl

/-- C8: for a backtick token `` `s` ``, `Str::value` returns the raw bytes
between the fences unchanged except that a single leading `\r\n` or `\n`
immediately inside the opening backtick is removed; a lone `\r` is preserved
and no escape processing happens (a literal backslash sequence stays). -/
theorem c8_backtick_value (s : List Char) :
    strBacktickValue ('`' :: s ++ ['`']) = specBacktickStrip s := by
  have hback : stripLeadNl (s ++ ['`']) = specBacktickStrip s ++ ['`'] := by
    rcases s with _ | ⟨c, s'⟩
    · rfl
    · by_cases h1 : c = '\r'
      · subst h1
        rcases s' with _ | ⟨d, s''⟩
        · rfl
        · by_cases h2 : d = '\n'
          · subst h2; simp [stripLeadNl, specBacktickStrip]
          · simp [stripLeadNl, specBacktickStrip, h2]
      · by_cases h2 : c = '\n'
        · subst h2; simp [stripLeadNl, specBacktickStrip]
        · simp [stripLeadNl, specBacktickStrip, h1, h2]
  rw [show strBacktickValue ('`' :: s ++ ['`']) =
      (if (stripLeadNl (s ++ ['`'])).getLast? = some '`'
       then (stripLeadNl (s ++ ['`'])).dropLast else stripLeadNl (s ++ ['`'])) from rfl]
  rw [hback]
  simp [List.getLast?_concat, List.dropLast_concat]

theorem filter_digits_self (l : List Char) (h : l.all (isDigitR 16) = true) :
    l.filter (· ≠ '_') = l := by
  induction l with
  | nil => rfl
  | cons c r ih =>
      rw [List.all_cons, Bool.and_eq_true] at h
      have hc : c ≠ '_' := by
        intro hc
        subst hc
        simp [isDigitR, charToDigit] at h
      rw [List.filter_cons]
      simp only [hc, if_true, decide_eq_true_eq]
      rw [ih h.2]
      simp [hc]

theorem parseU64Digits_overflow (t : List Char) (hn : t ≠ [])
    (hd : t.all Char.isDigit = true) (hv : 2 ^ 64 ≤ digitsVal t) :
    parseU64Digits t = none := by
  unfold parseU64Digits
  rw [if_pos ⟨hn, hd⟩, if_neg (by omega)]

theorem parseU64_overflow (t : List Char) (hn : t ≠ [])
    (hd : t.all Char.isDigit = true) (hv : 2 ^ 64 ≤ digitsVal t) :
    parseU64 t = none := by
  have hh : t.head? ≠ some '+' := by
    intro hp
    rcases t with _ | ⟨c, r⟩
    · simp at hp
    · simp only [List.head?_cons, Option.some.injEq] at hp
      subst hp
      rw [List.all_cons] at hd
      simp at hd
  unfold parseU64
  rw [if_neg hh]
  exact parseU64Digits_overflow t hn hd hv

theorem parseI64_neg_overflow (t : List Char) (hv : 2 ^ 63 < digitsVal t) :
    parseI64 ('-' :: t) = none := by
  rw [parseI64]
  rw [if_neg (by rintro ⟨-, -, hle⟩; omega)]

theorem fromStrRadixDigits_overflow (r : Nat) (t : List Char) (hn : t ≠ [])
    (hd : t.all (isDigitR r) = true) (hv : 2 ^ 64 ≤ digitsValR r t) :
    fromStrRadixDigits r t = none := by
  unfold fromStrRadixDigits
  rw [if_pos ⟨hn, hd⟩, if_neg (by omega)]

theorem filter_digitsR_self (r : Nat) (l : List Char) (h : l.all (isDigitR r) = true) :
    l.filter (· ≠ '_') = l := by
  induction l with
  | nil => rfl
  | cons c t ih =>
      rw [List.all_cons, Bool.and_eq_true] at h
      have hund : charToDigit '_' = none := by decide
      have hc : c ≠ '_' := by
        intro hc
        subst hc
        simp [isDigitR, hund] at h
      rw [List.filter_cons]
      simp only [hc, if_true, decide_eq_true_eq]
      rw [ih h.2]
      simp [hc]

/-- `trim_start_matches("0" ++ p)` on a radix literal `0p<digits>`: the prefix
is removed exactly once, because `p` is not a digit of the radix and so cannot
occur again right after the first digit. -/
theorem trim_radix_prefix (p : Char) (r : Nat) (s : List Char)
    (hp : isDigitR r p = false) (ha : s.all (isDigitR r) = true) :
    trimPrefTwo '0' p ('0' :: p :: s) = s := by
  rw [trimPrefTwo, if_pos ⟨rfl, rfl⟩]
  rcases s with _ | ⟨c1, s1⟩
  · rfl
  · rcases s1 with _ | ⟨c2, s2⟩
    · rfl
    · have hx : c2 ≠ p := by
        rw [List.all_cons, List.all_cons] at ha
        intro h
        subst h
        simp [hp] at ha
      rw [trimPrefTwo, if_neg (by rintro ⟨-, h⟩; exact hx h)]

/-- The common tail of `Integer::value`'s `Bin`/`Oct`/`Hex` branches on a
prefixed literal whose digits exceed `u64`: the `from_str_radix` parse fails
and `unwrap_or_default` collapses it to `0`. -/
theorem fromStrRadix_prefixed_overflow (p : Char) (r : Nat) (s : List Char)
    (hpne : p ≠ '_') (hp : isDigitR r p = false) (hplus : isDigitR r '+' = false)
    (ha : s.all (isDigitR r) = true) (hn : s ≠ [])
    (hv : 2 ^ 64 ≤ digitsValR r s) :
    (fromStrRadixU64 r (trimPrefTwo '0' p (('0' :: p :: s).filter (· ≠ '_')))).getD 0
      = 0 := by
  have hfil : ('0' :: p :: s).filter (· ≠ '_') = '0' :: p :: s := by
    rw [List.filter_cons, List.filter_cons, filter_digitsR_self r s ha]
    simp [hpne]
  rw [hfil, trim_radix_prefix p r s hp ha]
  have hh : s.head? ≠ some '+' := by
    intro h
    rcases s with _ | ⟨c, cs⟩
    · simp at h
    · simp only [List.head?_cons, Option.some.injEq] at h
      subst h
      rw [List.all_cons] at ha
      simp [hplus] at ha
  rw [fromStrRadixU64, if_neg hh, fromStrRadixDigits_overflow r s hn ha hv]
  rfl

/-- C10: `Integer::value` silently saturates overflow to zero. A decimal
digit-and-underscore text whose underscore-stripped value does not fit `u64`
decodes to `Positive 0`; a `-`-signed text whose underscore-stripped
magnitude exceeds `2^63` (so it does not fit `i64` — including the whole
range `(2^63, 2^64)`) decodes to `Negative 0`; binary, octal and hexadecimal
literals whose digits exceed `u64` decode to `Positive 0`; and
`Integer::validate_impl` consults only the (untouched) deferred-error list,
so an error-free node still validates as clean. -/
theorem c10_overflow_saturates_to_zero (ds ns bs os hs : List Char)
    (hda : ds.all (fun c => c.isDigit || c = '_') = true)
    (hdn : ds.filter (· ≠ '_') ≠ [])
    (hdv : 2 ^ 64 ≤ digitsVal (ds.filter (· ≠ '_')))
    (hnv : 2 ^ 63 < digitsVal (ns.filter (· ≠ '_')))
    (hba : bs.all (isDigitR 2) = true) (hbn : bs ≠ [])
    (hbv : 2 ^ 64 ≤ digitsValR 2 bs)
    (hoa : os.all (isDigitR 8) = true) (hon : os ≠ [])
    (hov : 2 ^ 64 ≤ digitsValR 8 os)
    (hha : hs.all (isDigitR 16) = true) (hhn : hs ≠ [])
    (hhv : 2 ^ 64 ≤ digitsValR 16 hs) :
    integerValueOf .Dec ds = .Positive 0 ∧
    integerValueOf .Dec ('-' :: ns) = .Negative 0 ∧
    integerValueOf .Bin ('0' :: 'b' :: bs) = .Positive 0 ∧
    integerValueOf .Oct ('0' :: 'o' :: os) = .Positive 0 ∧
    integerValueOf .Hex ('0' :: 'x' :: hs) = .Positive 0 ∧
    integerValidateImpl ([] : List Unit) = true := by
  have hdigits : (ds.filter (· ≠ '_')).all Char.isDigit = true := by
    rw [List.all_eq_true] at hda ⊢
    intro c hc
    rw [List.mem_filter] at hc
    obtain ⟨hmem, hne⟩ := hc
    have h2 := hda c hmem
    have hne' : c ≠ '_' := by simpa using hne
    rcases Bool.or_eq_true _ _ |>.mp h2 with h | h
    · exact h
    · exact absurd (by simpa using h) hne'
  have hhead : ds.head? ≠ some '-' := by
    intro hh
    cases ds with
    | nil => simp at hh
    | cons c r =>
        simp only [List.head?_cons, Option.some.injEq] at hh
        subst hh
        rw [List.all_cons] at hda
        simp at hda
  refine ⟨?_, ?_, ?_, ?_, ?_, rfl⟩
  · rw [integerValueOf]
    rw [if_neg hhead]
    rw [parseU64_overflow _ hdn hdigits hdv]
    rfl
  · rw [integerValueOf]
    rw [if_pos (show ('-' :: ns).head? = some '-' from rfl)]
    have hfil : ('-' :: ns).filter (· ≠ '_') = '-' :: ns.filter (· ≠ '_') := by
      rw [List.filter_cons]
      simp
    rw [hfil]
    rw [parseI64_neg_overflow _ hnv]
    rfl
  · rw [integerValueOf]
    rw [fromStrRadix_prefixed_overflow 'b' 2 bs (by decide) (by decide) (by decide)
      hba hbn hbv]
  · rw [integerValueOf]
    rw [fromStrRadix_prefixed_overflow 'o' 8 os (by decide) (by decide) (by decide)
      hoa hon hov]
  · rw [integerValueOf]
    rw [fromStrRadix_prefixed_overflow 'x' 16 hs (by decide) (by decide) (by decide)
      hha hhn hhv]

/-- C10 witness: `2^64` in decimal, `2^63 + 1` (inside `(2^63, 2^64)`) as a
negative decimal, and `2^64` in binary, octal and hexadecimal. -/
theorem c10_witness :
    integerValueOf .Dec "18446744073709551616".data = .Positive 0 ∧
    integerValueOf .Dec ('-' :: "9223372036854775809".data) = .Negative 0 ∧
    integerValueOf .Bin ('0' :: 'b' ::
      "10000000000000000000000000000000000000000000000000000000000000000".data)
      = .Positive 0 ∧
    integerValueOf .Oct ('0' :: 'o' :: "2000000000000000000000".data) = .Positive 0 ∧
    integerValueOf .Hex ('0' :: 'x' :: "10000000000000000".data) = .Positive 0 ∧
    integerValidateImpl ([] : List Unit) = true :=
  c10_overflow_saturates_to_zero "18446744073709551616".data
    "9223372036854775809".data
    "10000000000000000000000000000000000000000000000000000000000000000".data
    "2000000000000000000000".data "10000000000000000".data
    (by decide) (by decide) (by decide) (by decide) (by decide) (by decide)
    (by decide) (by decide) (by decide) (by decide) (by decide) (by decide)
    (by decide)

/-! ## Branch behavior of `parse_key` and `parse_value` -/

theorem peek_of_current (st : PState) (t : Token) (h : st.current = some t) :
    peekToken st = (some t, st) := by
  unfold peekToken
  rw [h]

theorem mustPeek_of_current (st : PState) (t : Token) (h : st.current = some t) :
    mustPeekToken st = (some t, st) := by
  unfold mustPeekToken
  rw [peek_of_current st t h]

theorem consumeCurrent_of_current (st : PState) (t : Token) (h : st.current = some t) :
    consumeCurrent st = (.ok, emitToken t.kind t.text st) := by
  unfold consumeCurrent
  rw [peek_of_current st t h]

theorem addError_of_empty (st : PState) (e : PError) (h : st.errors = []) :
    addError st e = { st with errors := [e] } := by
  unfold addError
  rw [h]
  rfl

theorem consumeError_of_current (msg : String) (st : PState) (t : Token)
    (hcur : st.current = some t) (herr : st.errors = []) :
    consumeErrorToken msg st =
      (.err, emitToken ERROR t.text
        { st with errors := [⟨st.tokenStart, st.tokenEnd, msg⟩] }) := by
  unfold consumeErrorToken
  rw [addError_of_empty st _ herr]
  rw [show ({ st with errors := [⟨st.tokenStart, st.tokenEnd, msg⟩] } : PState).current
      = some t from hcur]

theorem addPointErrors_nil (msg : String) (base : Nat) (st : PState) :
    addPointErrors msg base [] st = st := rfl

/-- C5 (amended): key acceptance by `parse_key`. `IDENT`, keywords, radix
integers, quoted strings and *any non-`+`-signed* decimal integer (including
`-`-signed ones) are accepted as keys; a `+`-signed integer or `+`-prefixed
float is silently rejected (`Err` with nothing consumed and no error
recorded); a float key starting with `0` is consumed as an error token with
the zero-padded message; other float keys are accepted. -/
theorem c5_parse_key_acceptance (fuel : Nat) (st : PState) (t : Token)
    (hcur : st.current = some t) (herr : st.errors = []) :
    (((t.kind = INTEGER ∨ t.kind = FLOAT) ∧ t.text.head? = some '+') →
        parseKey (fuel + 1) st = (.err, st)) ∧
    ((t.kind = INTEGER ∧ t.text.head? ≠ some '+') →
        parseKey (fuel + 1) st = (.ok, emitToken INTEGER t.text st)) ∧
    ((t.kind = IDENT ∨ t.kind = NULL ∨ t.kind = BOOL ∨ t.kind = INTEGER_HEX ∨
        t.kind = INTEGER_BIN ∨ t.kind = INTEGER_OCT) →
        parseKey (fuel + 1) st = (.ok, emitToken t.kind t.text st)) ∧
    (((t.kind = SINGLE_QUOTE ∨ t.kind = DOUBLE_QUOTE) ∧ stringErrIdxs t.text = []) →
        parseKey (fuel + 1) st = (.ok, emitToken t.kind t.text st)) ∧
    ((t.kind = FLOAT ∧ t.text.head? ≠ some '0' ∧ t.text.head? ≠ some '+') →
        parseKey (fuel + 1) st = (.ok, emitToken FLOAT t.text st)) ∧
    ((t.kind = FLOAT ∧ t.text.head? = some '0') →
        parseKey (fuel + 1) st =
          (.err, emitToken ERROR t.text
            { st with errors :=
                [⟨st.tokenStart, st.tokenEnd, "zero-padded numbers are not allowed"⟩] })) := by
  have hred : parseKey (fuel + 1) st =
      (match t.kind with
       | IDENT => consumeCurrent st
       | NULL => consumeCurrent st
       | BOOL => consumeCurrent st
       | INTEGER_HEX => consumeCurrent st
       | INTEGER_BIN => consumeCurrent st
       | INTEGER_OCT => consumeCurrent st
       | INTEGER =>
           if t.text.head? = some '+' then (.err, st)
           else consumeCurrent st
       | SINGLE_QUOTE =>
           consumeCurrent (addPointErrors "invalid control character in string"
             st.tokenStart (stringErrIdxs t.text) st)
       | DOUBLE_QUOTE =>
           consumeCurrent (addPointErrors "invalid control character in string"
             st.tokenStart (stringErrIdxs t.text) st)
       | FLOAT =>
           if t.text.head? = some '0' then
             consumeErrorToken "zero-padded numbers are not allowed" st
           else if t.text.head? = some '+' then (.err, st)
           else consumeCurrent st
       | _ => consumeErrorToken "expected identifier" st) := by
    rw [parseKey.eq_def]
    dsimp only
    rw [mustPeek_of_current st t hcur]
  refine ⟨?_, ?_, ?_, ?_, ?_, ?_⟩
  · rintro ⟨hk | hk, hp⟩ <;> rw [hred, hk] <;> dsimp only
    · rw [if_pos hp]
    · rw [if_neg (by rw [hp]; decide), if_pos hp]
  · rintro ⟨hk, hp⟩
    rw [hred, hk]
    dsimp only
    rw [if_neg hp, consumeCurrent_of_current st t hcur, hk]
  · intro hk
    rcases hk with hk | hk | hk | hk | hk | hk <;>
      (rw [hred, hk]; dsimp only; rw [consumeCurrent_of_current st t hcur, hk])
  · rintro ⟨hk, hs⟩
    rcases hk with hk | hk <;>
      (rw [hred, hk]; dsimp only; rw [hs, addPointErrors_nil,
        consumeCurrent_of_current st t hcur, hk])
  · rintro ⟨hk, h0, hp⟩
    rw [hred, hk]
    dsimp only
    rw [if_neg h0, if_neg hp, consumeCurrent_of_current st t hcur, hk]
  · rintro ⟨hk, h0⟩
    rw [hred, hk]
    dsimp only
    rw [if_pos h0, consumeError_of_current _ st t hcur herr]

/-- C5 counterexample: `{-1:1}` parses cleanly — the `-`-signed integer key
is accepted, with no error and the full text consumed into the tree. -/
theorem c5_cex :
    (runParser 40 (lex "\x7b-1:1\x7d".data)).1 = .ok ∧
    (runParser 40 (lex "\x7b-1:1\x7d".data)).2.errors = [] ∧
    ((parseGreen 40 (lex "\x7b-1:1\x7d".data)).1.map GElem.textOf
      = some "\x7b-1:1\x7d".data) :=
  ⟨rfl, rfl, rfl⟩

/-- C5 witness: `parse_key` at a peeked `INTEGER` token `-1`. -/
theorem c5_witness :
    ((((Token.mk INTEGER "-1".data).kind = INTEGER ∨
        (Token.mk INTEGER "-1".data).kind = FLOAT) ∧
        (Token.mk INTEGER "-1".data).text.head? = some '+') →
      parseKey 1 ⟨[], some ⟨INTEGER, "-1".data⟩, 1, 3, [], []⟩ =
        (.err, ⟨[], some ⟨INTEGER, "-1".data⟩, 1, 3, [], []⟩)) ∧
    (((Token.mk INTEGER "-1".data).kind = INTEGER ∧
        (Token.mk INTEGER "-1".data).text.head? ≠ some '+') →
      parseKey 1 ⟨[], some ⟨INTEGER, "-1".data⟩, 1, 3, [], []⟩ =
        (.ok, emitToken INTEGER (Token.mk INTEGER "-1".data).text
          ⟨[], some ⟨INTEGER, "-1".data⟩, 1, 3, [], []⟩)) ∧
    (((Token.mk INTEGER "-1".data).kind = IDENT ∨
        (Token.mk INTEGER "-1".data).kind = NULL ∨
        (Token.mk INTEGER "-1".data).kind = BOOL ∨
        (Token.mk INTEGER "-1".data).kind = INTEGER_HEX ∨
        (Token.mk INTEGER "-1".data).kind = INTEGER_BIN ∨
        (Token.mk INTEGER "-1".data).kind = INTEGER_OCT) →
      parseKey 1 ⟨[], some ⟨INTEGER, "-1".data⟩, 1, 3, [], []⟩ =
        (.ok, emitToken (Token.mk INTEGER "-1".data).kind
          (Token.mk INTEGER "-1".data).text
          ⟨[], some ⟨INTEGER, "-1".data⟩, 1, 3, [], []⟩)) ∧
    ((((Token.mk INTEGER "-1".data).kind = SINGLE_QUOTE ∨
        (Token.mk INTEGER "-1".data).kind = DOUBLE_QUOTE) ∧
        stringErrIdxs (Token.mk INTEGER "-1".data).text = []) →
      parseKey 1 ⟨[], some ⟨INTEGER, "-1".data⟩, 1, 3, [], []⟩ =
        (.ok, emitToken (Token.mk INTEGER "-1".data).kind
          (Token.mk INTEGER "-1".data).text
          ⟨[], some ⟨INTEGER, "-1".data⟩, 1, 3, [], []⟩)) ∧
    (((Token.mk INTEGER "-1".data).kind = FLOAT ∧
        (Token.mk INTEGER "-1".data).text.head? ≠ some '0' ∧
        (Token.mk INTEGER "-1".data).text.head? ≠ some '+') →
      parseKey 1 ⟨[], some ⟨INTEGER, "-1".data⟩, 1, 3, [], []⟩ =
        (.ok, emitToken FLOAT (Token.mk INTEGER "-1".data).text
          ⟨[], some ⟨INTEGER, "-1".data⟩, 1, 3, [], []⟩)) ∧
    (((Token.mk INTEGER "-1".data).kind = FLOAT ∧
        (Token.mk INTEGER "-1".data).text.head? = some '0') →
      parseKey 1 ⟨[], some ⟨INTEGER, "-1".data⟩, 1, 3, [], []⟩ =
        (.err, emitToken ERROR (Token.mk INTEGER "-1".data).text
          { (⟨[], some ⟨INTEGER, "-1".data⟩, 1, 3, [], []⟩ : PState) with
              errors := [⟨1, 3, "zero-padded numbers are not allowed"⟩] })) :=
  c5_parse_key_acceptance 0 ⟨[], some ⟨INTEGER, "-1".data⟩, 1, 3, [], []⟩
    (Token.mk INTEGER "-1".data) rfl rfl

/-- The zero-padding condition as the spec words it: the integer part starts
with `0` after an optional `+`/`-` sign and the text is not exactly `0`,
`+0` or `-0`. -/
def specZeroPad (s : List Char) : Prop :=
  (∃ sgn r, (sgn = [] ∨ sgn = ['+'] ∨ sgn = ['-']) ∧ s = sgn ++ r ∧ r.head? = some '0') ∧
  s ≠ ['0'] ∧ s ≠ ['+', '0'] ∧ s ≠ ['-', '0']

theorem zeroPadCond_iff (s : List Char) : zeroPadCond s = true ↔ specZeroPad s := by
  constructor
  · intro h
    rw [zeroPadCond] at h
    simp only [Bool.or_eq_true, Bool.and_eq_true, decide_eq_true_eq] at h
    rcases h with (⟨h0, hne⟩ | ⟨⟨tl, rfl⟩, hne⟩) | ⟨⟨tl, rfl⟩, hne⟩
    · refine ⟨⟨[], s, Or.inl rfl, rfl, by simpa using h0⟩, by simpa using hne, ?_, ?_⟩
      · rintro rfl; simp at h0
      · rintro rfl; simp at h0
    · refine ⟨⟨['+'], '0' :: tl, Or.inr (Or.inl rfl), rfl, rfl⟩,
        by simp, by simpa using hne, by simp⟩
    · refine ⟨⟨['-'], '0' :: tl, Or.inr (Or.inr rfl), rfl, rfl⟩,
        by simp, by simp, by simpa using hne⟩
  · rintro ⟨⟨sgn, r, hsgn, rfl, hr⟩, h1, h2, h3⟩
    rw [zeroPadCond]
    simp only [Bool.or_eq_true, Bool.and_eq_true, decide_eq_true_eq]
    rcases hsgn with rfl | rfl | rfl
    · left; left
      refine ⟨by simpa using hr, by simpa using h1⟩
    · left; right
      rcases r with _ | ⟨c, r'⟩
      · simp at hr
      · simp only [List.head?_cons, Option.some.injEq] at hr
        subst hr
        exact ⟨⟨r', rfl⟩, by simpa using h2⟩
    · right
      rcases r with _ | ⟨c, r'⟩
      · simp at hr
      · simp only [List.head?_cons, Option.some.injEq] at hr
        subst hr
        exact ⟨⟨r', rfl⟩, by simpa using h3⟩

theorem emitToken_errors (k : SyntaxKind) (txt : List Char) (st : PState) :
    (emitToken k txt st).errors = st.errors := rfl

/-- C6 (amended): in value position, the parser records the zero-padding
error for a decimal `INTEGER` token exactly when the spec's condition holds
of its text, and for a `FLOAT` token exactly when the condition holds of its
integer part (the text before the first `.`, or before `e` if there is no
dot). (In key position this is not the rule: integer keys are never
zero-pad-checked, and a float key is rejected whenever it merely starts with
`0` — see `c5_parse_key_acceptance`.) -/
theorem c6_zero_padding_exactly (fuel : Nat) (st : PState) (t : Token)
    (hcur : st.current = some t) (herr : st.errors = []) :
    (t.kind = INTEGER →
      ((∃ e ∈ (parseValue (fuel + 1) st).2.errors,
          e.message = "zero-padded integers are not allowed") ↔ specZeroPad t.text)) ∧
    (t.kind = FLOAT →
      ((∃ e ∈ (parseValue (fuel + 1) st).2.errors,
          e.message = "zero-padded numbers are not allowed") ↔
        specZeroPad (floatIntSlice t.text))) := by
  constructor
  · intro hk
    rw [parseValue.eq_def]
    dsimp only
    rw [mustPeek_of_current st t hcur]
    dsimp only
    rw [hk]
    dsimp only
    by_cases hz : zeroPadCond t.text = true
    · rw [if_pos hz]
      rw [consumeError_of_current _ st t hcur herr]
      dsimp only
      rw [emitToken_errors]
      exact iff_of_true ⟨_, List.mem_singleton_self _, rfl⟩ ((zeroPadCond_iff _).mp hz)
    · rw [if_neg hz]
      have hspec : ¬ specZeroPad t.text := fun hs =>
        hz ((zeroPadCond_iff _).mpr hs)
      by_cases hu : (!validate_underscore_integer t.text 10) = true
      · rw [if_pos hu]
        rw [consumeError_of_current _ st t hcur herr]
        dsimp only
        rw [emitToken_errors]
        refine iff_of_false ?_ hspec
        rintro ⟨e, he, hm⟩
        rw [List.mem_singleton] at he
        subst he
        simp at hm
      · rw [if_neg hu]
        rw [consumeCurrent_of_current st t hcur]
        dsimp only
        rw [emitToken_errors, herr]
        refine iff_of_false ?_ hspec
        rintro ⟨e, he, -⟩
        simp at he
  · intro hk
    rw [parseValue.eq_def]
    dsimp only
    rw [mustPeek_of_current st t hcur]
    dsimp only
    rw [hk]
    dsimp only
    by_cases hz : zeroPadCond (floatIntSlice t.text) = true
    · rw [if_pos hz]
      rw [consumeError_of_current _ st t hcur herr]
      dsimp only
      rw [emitToken_errors]
      exact iff_of_true ⟨_, List.mem_singleton_self _, rfl⟩ ((zeroPadCond_iff _).mp hz)
    · rw [if_neg hz]
      have hspec : ¬ specZeroPad (floatIntSlice t.text) := fun hs =>
        hz ((zeroPadCond_iff _).mpr hs)
      by_cases hu : (!validate_underscore_integer t.text 10) = true
      · rw [if_pos hu]
        rw [consumeError_of_current _ st t hcur herr]
        dsimp only
        rw [emitToken_errors]
        refine iff_of_false ?_ hspec
        rintro ⟨e, he, hm⟩
        rw [List.mem_singleton] at he
        subst he
        simp at hm
      · rw [if_neg hu]
        rw [consumeCurrent_of_current st t hcur]
        dsimp only
        rw [emitToken_errors, herr]
        refine iff_of_false ?_ hspec
        rintro ⟨e, he, -⟩
        simp at he

/-- C6 counterexample: in `{01:1}` the decimal integer token `01` satisfies
the zero-padding condition, yet the parse records no error at all (keys are
not zero-pad-checked). -/
theorem c6_cex :
    (runParser 40 (lex "\x7b01:1\x7d".data)).2.errors = [] ∧
    (Token.mk INTEGER "01".data) ∈ lex "\x7b01:1\x7d".data ∧
    specZeroPad "01".data :=
  ⟨rfl, by decide, (zeroPadCond_iff _).mp (by decide)⟩

/-- C6 witness: the amended rule evaluated at the peeked token `01`. -/
theorem c6_witness :
    ((Token.mk INTEGER "01".data).kind = INTEGER →
      ((∃ e ∈ (parseValue 1 ⟨[], some ⟨INTEGER, "01".data⟩, 1, 3, [], []⟩).2.errors,
          e.message = "zero-padded integers are not allowed") ↔
        specZeroPad (Token.mk INTEGER "01".data).text)) ∧
    ((Token.mk INTEGER "01".data).kind = FLOAT →
      ((∃ e ∈ (parseValue 1 ⟨[], some ⟨INTEGER, "01".data⟩, 1, 3, [], []⟩).2.errors,
          e.message = "zero-padded numbers are not allowed") ↔
        specZeroPad (floatIntSlice (Token.mk INTEGER "01".data).text))) :=
  c6_zero_padding_exactly 0 ⟨[], some ⟨INTEGER, "01".data⟩, 1, 3, [], []⟩
    (Token.mk INTEGER "01".data) rfl rfl

/-- The adjacent-pair condition maintained by `validate_underscore_integer`'s
loop: the right character may be `_` only after a radix digit, and a
non-digit may not follow `_`. -/
def okUnd (radix : Nat) (a b : Char) : Prop :=
  ¬(b = '_' ∧ isDigitR radix a = false) ∧ ¬(isDigitR radix b = false ∧ a = '_')

theorem vuLoop_iff_chain (radix : Nat) :
    ∀ (s : List Char) (prev : Char),
      vuLoop radix prev s = true ↔ List.Chain' (okUnd radix) (prev :: s) := by
  intro s
  induction s with
  | nil => intro prev; simp [vuLoop]
  | cons c rest ih =>
      intro prev
      rw [vuLoop]
      rw [List.chain'_cons]
      by_cases h1 : (c = '_' && !isDigitR radix prev) = true
      · rw [if_pos h1]
        simp only [Bool.and_eq_true, Bool.not_eq_true', decide_eq_true_eq] at h1
        constructor
        · intro h; exact absurd h (by simp)
        · rintro ⟨⟨hok1, -⟩, -⟩
          exact absurd ⟨h1.1, h1.2⟩ hok1
      · rw [if_neg h1]
        by_cases h2 : (!isDigitR radix c && prev = '_') = true
        · rw [if_pos h2]
          simp only [Bool.and_eq_true, Bool.not_eq_true', decide_eq_true_eq] at h2
          constructor
          · intro h; exact absurd h (by simp)
          · rintro ⟨⟨-, hok2⟩, -⟩
            exact absurd ⟨h2.1, h2.2⟩ hok2
        · rw [if_neg h2]
          simp only [Bool.and_eq_true, Bool.not_eq_true', decide_eq_true_eq,
            not_and] at h1 h2
          rw [ih c]
          constructor
          · intro h
            refine ⟨⟨?_, ?_⟩, h⟩
            · rintro ⟨hb, hd⟩; exact absurd hd (by simpa [hb] using h1)
            · rintro ⟨hd, ha⟩; exact absurd ha (by simpa [hd] using h2)
          · rintro ⟨-, h⟩; exact h

theorem not_chain'_iff {α : Type} (R : α → α → Prop) :
    ∀ l : List α, ¬ List.Chain' R l ↔
      ∃ l1 a b l2, l = l1 ++ a :: b :: l2 ∧ ¬ R a b := by
  intro l
  induction l with
  | nil =>
      simp only [List.chain'_nil, not_true_eq_false, false_iff, not_exists]
      rintro l1 a b l2 ⟨h, -⟩
      exact absurd h (by simp)
  | cons x rest ih =>
      cases rest with
      | nil =>
          simp only [List.chain'_singleton, not_true_eq_false, false_iff, not_exists]
          rintro l1 a b l2 ⟨h, -⟩
          rcases l1 with _ | ⟨z, l1'⟩ <;> simp at h
      | cons y l' =>
          rw [List.chain'_cons]
          constructor
          · intro h
            rcases not_and_or.mp h with h | h
            · exact ⟨[], x, y, l', rfl, h⟩
            · obtain ⟨l1, a, b, l2, heq, hr⟩ := ih.mp h
              exact ⟨x :: l1, a, b, l2, by rw [heq]; rfl, hr⟩
          · rintro ⟨l1, a, b, l2, heq, hr⟩ ⟨hR, hch⟩
            rcases l1 with _ | ⟨z, l1'⟩
            · rw [List.nil_append, List.cons.injEq, List.cons.injEq] at heq
              obtain ⟨rfl, rfl, -⟩ := heq
              exact hr hR
            · rw [List.cons_append, List.cons.injEq] at heq
              obtain ⟨rfl, heq2⟩ := heq
              exact ih.mpr ⟨l1', a, b, l2, heq2, hr⟩ hch

/-- An invalid underscore as the spec words it: a leading or trailing
underscore, or an adjacent pair in which an underscore does not sit next to
a radix-valid digit (which also covers underscores adjacent to another
underscore). -/
def specBadUnderscore (radix : Nat) (s : List Char) : Prop :=
  s.head? = some '_' ∨ s.getLast? = some '_' ∨
  ∃ l1 a b l2, s = l1 ++ a :: b :: l2 ∧
    ((b = '_' ∧ isDigitR radix a = false) ∨ (a = '_' ∧ isDigitR radix b = false))

theorem validate_underscore_false_iff (s : List Char) (radix : Nat) :
    validate_underscore_integer s radix = false ↔ specBadUnderscore radix s := by
  have hnul1 : isDigitR radix (Char.ofNat 0) = false := by
    simp [isDigitR, charToDigit]
  have hnul2 : (Char.ofNat 0) ≠ '_' := by decide
  unfold validate_underscore_integer
  by_cases hg : (s.head? = some '_' || s.getLast? = some '_') = true
  · rw [if_pos hg]
    simp only [Bool.or_eq_true, decide_eq_true_eq] at hg
    refine iff_of_true rfl ?_
    rcases hg with h | h
    · exact Or.inl h
    · exact Or.inr (Or.inl h)
  · rw [if_neg hg]
    simp only [Bool.or_eq_true, decide_eq_true_eq, not_or] at hg
    obtain ⟨hgh, hgl⟩ := hg
    rw [Bool.eq_false_iff, Ne, vuLoop_iff_chain radix s (Char.ofNat 0)]
    rw [not_chain'_iff]
    constructor
    · rintro ⟨l1, a, b, l2, heq, hr⟩
      rcases l1 with _ | ⟨z, l1'⟩
      · rw [List.nil_append, List.cons.injEq] at heq
        obtain ⟨rfl, rfl⟩ := heq
        exfalso
        rw [okUnd, not_and_or] at hr
        rcases hr with hr | hr
        · rw [not_not] at hr
          exact hgh (by simp [hr.1])
        · rw [not_not] at hr
          exact hnul2 hr.2
      · rw [List.cons_append, List.cons.injEq] at heq
        obtain ⟨-, heq2⟩ := heq
        refine Or.inr (Or.inr ⟨l1', a, b, l2, heq2, ?_⟩)
        rw [okUnd, not_and_or, not_not, not_not] at hr
        rcases hr with hr | hr
        · exact Or.inl hr
        · exact Or.inr ⟨hr.2, hr.1⟩
    · intro hs
      rcases hs with h | h | ⟨l1, a, b, l2, heq, hcond⟩
      · exact absurd h hgh
      · exact absurd h hgl
      · refine ⟨Char.ofNat 0 :: l1, a, b, l2, by rw [heq]; rfl, ?_⟩
        rw [okUnd, not_and_or, not_not, not_not]
        rcases hcond with h | h
        · exact Or.inl h
        · exact Or.inr ⟨h.2, h.1⟩

/-- C7 (amended): `validate_underscore_integer` returns `false` exactly when
the token has an underscore that is leading, trailing, or not adjacent to
radix-valid digits; and in value position the parser records
`invalid underscores` exactly when that condition holds *and* (for decimal
integers and floats) the zero-padding check did not already fire — the
zero-padding error takes precedence. Number tokens in key position are never
underscore-checked (see `c5_parse_key_acceptance`). -/
theorem c7_underscore_rules (fuel : Nat) (st : PState) (t : Token)
    (u : List Char) (r : Nat)
    (hcur : st.current = some t) (herr : st.errors = []) :
    (validate_underscore_integer u r = false ↔ specBadUnderscore r u) ∧
    (t.kind = INTEGER →
      ((∃ e ∈ (parseValue (fuel + 1) st).2.errors, e.message = "invalid underscores") ↔
        (zeroPadCond t.text = false ∧ specBadUnderscore 10 t.text))) ∧
    (t.kind = INTEGER_BIN →
      ((∃ e ∈ (parseValue (fuel + 1) st).2.errors, e.message = "invalid underscores") ↔
        specBadUnderscore 2 t.text)) ∧
    (t.kind = INTEGER_OCT →
      ((∃ e ∈ (parseValue (fuel + 1) st).2.errors, e.message = "invalid underscores") ↔
        specBadUnderscore 8 t.text)) ∧
    (t.kind = INTEGER_HEX →
      ((∃ e ∈ (parseValue (fuel + 1) st).2.errors, e.message = "invalid underscores") ↔
        specBadUnderscore 16 t.text)) ∧
    (t.kind = FLOAT →
      ((∃ e ∈ (parseValue (fuel + 1) st).2.errors, e.message = "invalid underscores") ↔
        (zeroPadCond (floatIntSlice t.text) = false ∧ specBadUnderscore 10 t.text))) := by
  refine ⟨validate_underscore_false_iff u r, ?_, ?_, ?_, ?_, ?_⟩
  · intro hk
    rw [parseValue.eq_def]
    dsimp only
    rw [mustPeek_of_current st t hcur]
    dsimp only
    rw [hk]
    dsimp only
    by_cases hz : zeroPadCond t.text = true
    · rw [if_pos hz]
      rw [consumeError_of_current _ st t hcur herr]
      dsimp only
      rw [emitToken_errors]
      refine iff_of_false ?_ ?_
      · rintro ⟨e, he, hm⟩
        rw [List.mem_singleton] at he
        subst he
        simp at hm
      · rintro ⟨hzf, -⟩
        rw [hz] at hzf
        exact absurd hzf (by decide)
    · rw [if_neg hz]
      have hzf : zeroPadCond t.text = false := by
        rcases Bool.eq_false_or_eq_true (zeroPadCond t.text) with h | h
        · exact absurd h hz
        · exact h
      by_cases hu : (!validate_underscore_integer t.text 10) = true
      · rw [if_pos hu]
        rw [consumeError_of_current _ st t hcur herr]
        dsimp only
        rw [emitToken_errors]
        rw [Bool.not_eq_true'] at hu
        exact iff_of_true ⟨_, List.mem_singleton_self _, rfl⟩
          ⟨hzf, (validate_underscore_false_iff _ _).mp hu⟩
      · rw [if_neg hu]
        rw [consumeCurrent_of_current st t hcur]
        dsimp only
        rw [emitToken_errors, herr]
        rw [Bool.not_eq_true', Bool.not_eq_false] at hu
        refine iff_of_false ?_ ?_
        · rintro ⟨e, he, -⟩; simp at he
        · rintro ⟨-, hbad⟩
          have := (validate_underscore_false_iff t.text 10).mpr hbad
          rw [hu] at this
          exact absurd this (by decide)
  · intro hk
    rw [parseValue.eq_def]
    dsimp only
    rw [mustPeek_of_current st t hcur]
    dsimp only
    rw [hk]
    dsimp only
    by_cases hu : (!validate_underscore_integer t.text 2) = true
    · rw [if_pos hu]
      rw [consumeError_of_current _ st t hcur herr]
      dsimp only
      rw [emitToken_errors]
      rw [Bool.not_eq_true'] at hu
      exact iff_of_true ⟨_, List.mem_singleton_self _, rfl⟩
        ((validate_underscore_false_iff _ _).mp hu)
    · rw [if_neg hu]
      rw [consumeCurrent_of_current st t hcur]
      dsimp only
      rw [emitToken_errors, herr]
      rw [Bool.not_eq_true', Bool.not_eq_false] at hu
      refine iff_of_false ?_ ?_
      · rintro ⟨e, he, -⟩; simp at he
      · intro hbad
        have := (validate_underscore_false_iff t.text 2).mpr hbad
        rw [hu] at this
        exact absurd this (by decide)
  · intro hk
    rw [parseValue.eq_def]
    dsimp only
    rw [mustPeek_of_current st t hcur]
    dsimp only
    rw [hk]
    dsimp only
    by_cases hu : (!validate_underscore_integer t.text 8) = true
    · rw [if_pos hu]
      rw [consumeError_of_current _ st t hcur herr]
      dsimp only
      rw [emitToken_errors]
      rw [Bool.not_eq_true'] at hu
      exact iff_of_true ⟨_, List.mem_singleton_self _, rfl⟩
        ((validate_underscore_false_iff _ _).mp hu)
    · rw [if_neg hu]
      rw [consumeCurrent_of_current st t hcur]
      dsimp only
      rw [emitToken_errors, herr]
      rw [Bool.not_eq_true', Bool.not_eq_false] at hu
      refine iff_of_false ?_ ?_
      · rintro ⟨e, he, -⟩; simp at he
      · intro hbad
        have := (validate_underscore_false_iff t.text 8).mpr hbad
        rw [hu] at this
        exact absurd this (by decide)
  · intro hk
    rw [parseValue.eq_def]
    dsimp only
    rw [mustPeek_of_current st t hcur]
    dsimp only
    rw [hk]
    dsimp only
    by_cases hu : (!validate_underscore_integer t.text 16) = true
    · rw [if_pos hu]
      rw [consumeError_of_current _ st t hcur herr]
      dsimp only
      rw [emitToken_errors]
      rw [Bool.not_eq_true'] at hu
      exact iff_of_true ⟨_, List.mem_singleton_self _, rfl⟩
        ((validate_underscore_false_iff _ _).mp hu)
    · rw [if_neg hu]
      rw [consumeCurrent_of_current st t hcur]
      dsimp only
      rw [emitToken_errors, herr]
      rw [Bool.not_eq_true', Bool.not_eq_false] at hu
      refine iff_of_false ?_ ?_
      · rintro ⟨e, he, -⟩; simp at he
      · intro hbad
        have := (validate_underscore_false_iff t.text 16).mpr hbad
        rw [hu] at this
        exact absurd this (by decide)
  · intro hk
    rw [parseValue.eq_def]
    dsimp only
    rw [mustPeek_of_current st t hcur]
    dsimp only
    rw [hk]
    dsimp only
    by_cases hz : zeroPadCond (floatIntSlice t.text) = true
    · rw [if_pos hz]
      rw [consumeError_of_current _ st t hcur herr]
      dsimp only
      rw [emitToken_errors]
      refine iff_of_false ?_ ?_
      · rintro ⟨e, he, hm⟩
        rw [List.mem_singleton] at he
        subst he
        simp at hm
      · rintro ⟨hzf, -⟩
        rw [hz] at hzf
        exact absurd hzf (by decide)
    · rw [if_neg hz]
      have hzf : zeroPadCond (floatIntSlice t.text) = false := by
        rcases Bool.eq_false_or_eq_true (zeroPadCond (floatIntSlice t.text)) with h | h
        · exact absurd h hz
        · exact h
      by_cases hu : (!validate_underscore_integer t.text 10) = true
      · rw [if_pos hu]
        rw [consumeError_of_current _ st t hcur herr]
        dsimp only
        rw [emitToken_errors]
        rw [Bool.not_eq_true'] at hu
        exact iff_of_true ⟨_, List.mem_singleton_self _, rfl⟩
          ⟨hzf, (validate_underscore_false_iff _ _).mp hu⟩
      · rw [if_neg hu]
        rw [consumeCurrent_of_current st t hcur]
        dsimp only
        rw [emitToken_errors, herr]
        rw [Bool.not_eq_true', Bool.not_eq_false] at hu
        refine iff_of_false ?_ ?_
        · rintro ⟨e, he, -⟩; simp at he
        · rintro ⟨-, hbad⟩
          have := (validate_underscore_false_iff t.text 10).mpr hbad
          rw [hu] at this
          exact absurd this (by decide)

/-- C7 counterexample: in `{1__0:1}` the decimal integer token `1__0` has
adjacent underscores, yet the parse records no error at all (number keys are
not underscore-checked). -/
theorem c7_cex :
    (runParser 40 (lex "\x7b1__0:1\x7d".data)).2.errors = [] ∧
    (Token.mk INTEGER "1__0".data) ∈ lex "\x7b1__0:1\x7d".data ∧
    specBadUnderscore 10 "1__0".data :=
  ⟨rfl, by decide, (validate_underscore_false_iff _ _).mp (by decide)⟩

/-- C7 witness: the amended rule evaluated at the peeked token `1__0`. -/
theorem c7_witness :
    (validate_underscore_integer "1__0".data 10 = false ↔
      specBadUnderscore 10 "1__0".data) ∧
    ((Token.mk INTEGER "1__0".data).kind = INTEGER →
      ((∃ e ∈ (parseValue 1 ⟨[], some ⟨INTEGER, "1__0".data⟩, 1, 5, [], []⟩).2.errors,
          e.message = "invalid underscores") ↔
        (zeroPadCond (Token.mk INTEGER "1__0".data).text = false ∧
          specBadUnderscore 10 (Token.mk INTEGER "1__0".data).text))) ∧
    ((Token.mk INTEGER "1__0".data).kind = INTEGER_BIN →
      ((∃ e ∈ (parseValue 1 ⟨[], some ⟨INTEGER, "1__0".data⟩, 1, 5, [], []⟩).2.errors,
          e.message = "invalid underscores") ↔
        specBadUnderscore 2 (Token.mk INTEGER "1__0".data).text)) ∧
    ((Token.mk INTEGER "1__0".data).kind = INTEGER_OCT →
      ((∃ e ∈ (parseValue 1 ⟨[], some ⟨INTEGER, "1__0".data⟩, 1, 5, [], []⟩).2.errors,
          e.message = "invalid underscores") ↔
        specBadUnderscore 8 (Token.mk INTEGER "1__0".data).text)) ∧
    ((Token.mk INTEGER "1__0".data).kind = INTEGER_HEX →
      ((∃ e ∈ (parseValue 1 ⟨[], some ⟨INTEGER, "1__0".data⟩, 1, 5, [], []⟩).2.errors,
          e.message = "invalid underscores") ↔
        specBadUnderscore 16 (Token.mk INTEGER "1__0".data).text)) ∧
    ((Token.mk INTEGER "1__0".data).kind = FLOAT →
      ((∃ e ∈ (parseValue 1 ⟨[], some ⟨INTEGER, "1__0".data⟩, 1, 5, [], []⟩).2.errors,
          e.message = "invalid underscores") ↔
        (zeroPadCond (floatIntSlice (Token.mk INTEGER "1__0".data).text) = false ∧
          specBadUnderscore 10 (Token.mk INTEGER "1__0".data).text))) :=
  c7_underscore_rules 0 ⟨[], some ⟨INTEGER, "1__0".data⟩, 1, 5, [], []⟩
    (Token.mk INTEGER "1__0".data) "1__0".data 10 rfl rfl

/-! ## Error ordering invariant -/

/-- Admissible orderings of two errors `a` emitted before `b`: either the
document order is respected, or `b` is the `expect ","` error (emitted at the
saved span of the value before its trailing annotations), or `a`/`b` are the
char-class / escape errors of one string token (emitted in two passes). -/
def okPair (a b : PError) : Prop :=
  a.start ≤ b.start ∨ b.message = "expect \",\"" ∨
    (a.message = "invalid character in string" ∧ b.message = "invalid escape sequence")

/-- Positional invariant of the parser state: errors are pairwise admissible
and bounded by the last-lexed span; if a token is peeked, all errors lie at
or before its start and the span is exactly the token's extent. -/
def JInv (st : PState) : Prop :=
  (st.errors.Pairwise okPair ∧ (∀ e ∈ st.errors, e.start ≤ st.tokenEnd) ∧
    st.tokenStart ≤ st.tokenEnd) ∧
  (∀ t, st.current = some t →
    (∀ e ∈ st.errors, e.start ≤ st.tokenStart) ∧
    st.tokenEnd = st.tokenStart + t.text.length)

/-- Span monotonicity between two parser states. -/
def Mono (st st' : PState) : Prop :=
  st.tokenStart ≤ st'.tokenStart ∧ st.tokenEnd ≤ st'.tokenEnd

theorem Mono.rfl (st : PState) : Mono st st := ⟨le_rfl, le_rfl⟩

theorem Mono.trans {a b c : PState} (h1 : Mono a b) (h2 : Mono b c) : Mono a c :=
  ⟨le_trans h1.1 h2.1, le_trans h1.2 h2.2⟩

theorem pairwise_concat {l : List PError} {e : PError}
    (h : l.Pairwise okPair) (he : ∀ a ∈ l, okPair a e) :
    (l ++ [e]).Pairwise okPair := by
  rw [List.pairwise_append]
  exact ⟨h, List.pairwise_singleton _ _, fun a ha b hb => by
    rw [List.mem_singleton] at hb; subst hb; exact he a ha⟩

theorem addError_errors_cases (st : PState) (e : PError) :
    (addError st e).errors = st.errors ∨ (addError st e).errors = st.errors ++ [e] := by
  unfold addError
  split
  · split
    · exact Or.inl rfl
    · exact Or.inr rfl
  · exact Or.inr rfl

theorem addError_spans (st : PState) (e : PError) :
    (addError st e).tokenStart = st.tokenStart ∧ (addError st e).tokenEnd = st.tokenEnd := by
  unfold addError
  split
  · split <;> exact ⟨rfl, rfl⟩
  · exact ⟨rfl, rfl⟩

/-- Adding an error whose start is admissible after every present error and
bounded by the span end preserves the invariant. -/
theorem jinv_addError (st : PState) (e : PError)
    (hj : JInv st)
    (hok : ∀ a ∈ st.errors, okPair a e)
    (hstart : e.start ≤ st.tokenEnd)
    (hcur : ∀ t, st.current = some t → e.start ≤ st.tokenStart) :
    JInv (addError st e) := by
  obtain ⟨⟨hp, hb, hse⟩, hc⟩ := hj
  obtain ⟨hs1, hs2⟩ := addError_spans st e
  have hcur' : (addError st e).current = st.current := addError_current st e
  rcases addError_errors_cases st e with hE | hE
  · refine ⟨⟨?_, ?_, ?_⟩, ?_⟩
    · rw [hE]; exact hp
    · rw [hE, hs2]; exact hb
    · rw [hs1, hs2]; exact hse
    · intro t ht
      rw [hcur'] at ht
      obtain ⟨h1, h2⟩ := hc t ht
      rw [hE, hs1, hs2]
      exact ⟨h1, h2⟩
  · refine ⟨⟨?_, ?_, ?_⟩, ?_⟩
    · rw [hE]; exact pairwise_concat hp hok
    · rw [hE, hs2]
      intro a ha
      rcases List.mem_append.mp ha with ha | ha
      · exact hb a ha
      · rw [List.mem_singleton] at ha; subst ha; exact hstart
    · rw [hs1, hs2]; exact hse
    · intro t ht
      rw [hcur'] at ht
      obtain ⟨h1, h2⟩ := hc t ht
      rw [hE, hs1, hs2]
      refine ⟨?_, h2⟩
      intro a ha
      rcases List.mem_append.mp ha with ha | ha
      · exact h1 a ha
      · rw [List.mem_singleton] at ha; subst ha; exact hcur t ht

theorem jinv_addError_mono (st : PState) (e : PError) : Mono st (addError st e) := by
  obtain ⟨h1, h2⟩ := addError_spans st e
  exact ⟨h1.ge, h2.ge⟩

theorem addPointErrors_spans (msg : String) (base : Nat) (idxs : List Nat) (st : PState) :
    (addPointErrors msg base idxs st).tokenStart = st.tokenStart ∧
    (addPointErrors msg base idxs st).tokenEnd = st.tokenEnd := by
  induction idxs generalizing st with
  | nil => exact ⟨rfl, rfl⟩
  | cons i idxs ih =>
      simp only [addPointErrors, List.foldl_cons]
      rw [show List.foldl (fun s j => addError s ⟨base + j, base + j, msg⟩) (addError st ⟨base + i, base + i, msg⟩) idxs = addPointErrors msg base idxs (addError st ⟨base + i, base + i, msg⟩) from rfl]
      obtain ⟨a1, a2⟩ := addError_spans st ⟨base + i, base + i, msg⟩
      obtain ⟨b1, b2⟩ := ih (addError st ⟨base + i, base + i, msg⟩)
      exact ⟨by rw [b1, a1], by rw [b2, a2]⟩

/-- Membership characterization and pairwise preservation for a batch of
ascending point errors. -/
theorem jinv_addPointErrors (msg : String) (base : Nat) :
    ∀ (idxs : List Nat) (st : PState),
      st.errors.Pairwise okPair →
      (∀ a ∈ st.errors, ∀ i ∈ idxs, okPair a ⟨base + i, base + i, msg⟩) →
      idxs.Pairwise (· ≤ ·) →
      (addPointErrors msg base idxs st).errors.Pairwise okPair ∧
      (∀ e ∈ (addPointErrors msg base idxs st).errors,
        e ∈ st.errors ∨ ∃ i ∈ idxs, e = ⟨base + i, base + i, msg⟩) := by
  intro idxs
  induction idxs with
  | nil =>
      intro st hp _ _
      exact ⟨hp, fun e he => Or.inl he⟩
  | cons i rest ih =>
      intro st hp hok hsorted
      rw [List.pairwise_cons] at hsorted
      simp only [addPointErrors, List.foldl_cons]
      rw [show List.foldl (fun s j => addError s ⟨base + j, base + j, msg⟩) (addError st ⟨base + i, base + i, msg⟩) rest = addPointErrors msg base rest (addError st ⟨base + i, base + i, msg⟩) from rfl]
      have hmem : ∀ e ∈ (addError st ⟨base + i, base + i, msg⟩).errors,
          e ∈ st.errors ∨ e = ⟨base + i, base + i, msg⟩ := by
        intro e he
        rcases addError_errors_cases st ⟨base + i, base + i, msg⟩ with hE | hE
        · rw [hE] at he; exact Or.inl he
        · rw [hE] at he
          rcases List.mem_append.mp he with h | h
          · exact Or.inl h
          · rw [List.mem_singleton] at h; exact Or.inr h
      have hp' : (addError st ⟨base + i, base + i, msg⟩).errors.Pairwise okPair := by
        rcases addError_errors_cases st ⟨base + i, base + i, msg⟩ with hE | hE
        · rw [hE]; exact hp
        · rw [hE]
          exact pairwise_concat hp (fun a ha => hok a ha i (List.mem_cons_self i rest))
      have hok' : ∀ a ∈ (addError st ⟨base + i, base + i, msg⟩).errors,
          ∀ j ∈ rest, okPair a ⟨base + j, base + j, msg⟩ := by
        intro a ha j hj
        rcases hmem a ha with h | h
        · exact hok a h j (List.mem_cons_of_mem i hj)
        · subst h
          exact Or.inl (by simpa using hsorted.1 j hj)
      obtain ⟨hq, hm⟩ := ih (addError st ⟨base + i, base + i, msg⟩) hp' hok' hsorted.2
      refine ⟨hq, ?_⟩
      intro e he
      rcases hm e he with h | ⟨j, hj, hje⟩
      · rcases hmem e h with h2 | h2
        · exact Or.inl h2
        · exact Or.inr ⟨i, List.mem_cons_self i rest, h2⟩
      · exact Or.inr ⟨j, List.mem_cons_of_mem i hj, hje⟩

theorem range_filter_sorted (n : Nat) (p : Nat → Bool) :
    ((List.range n).filter p).Pairwise (· ≤ ·) :=
  (List.Pairwise.sublist (List.filter_sublist _) (List.pairwise_lt_range n)).imp le_of_lt

theorem range_filter_lt (n : Nat) (p : Nat → Bool) (i : Nat)
    (h : i ∈ (List.range n).filter p) : i < n :=
  List.mem_range.mp (List.mem_filter.mp h).1

theorem commentErrIdxs_sorted (m : Bool) (s : List Char) :
    (commentErrIdxs m s).Pairwise (· ≤ ·) := range_filter_sorted _ _

theorem commentErrIdxs_lt (m : Bool) (s : List Char) :
    ∀ i ∈ commentErrIdxs m s, i < s.length := fun i hi => range_filter_lt _ _ i hi

theorem stringErrIdxs_sorted (s : List Char) :
    (stringErrIdxs s).Pairwise (· ≤ ·) := range_filter_sorted _ _

theorem stringErrIdxs_lt (s : List Char) :
    ∀ i ∈ stringErrIdxs s, i < s.length := fun i hi => range_filter_lt _ _ i hi

theorem backtickErrIdxs_sorted (s : List Char) :
    (backtickErrIdxs s).Pairwise (· ≤ ·) := range_filter_sorted _ _

theorem backtickErrIdxs_lt (s : List Char) :
    ∀ i ∈ backtickErrIdxs s, i < s.length := fun i hi => range_filter_lt _ _ i hi

theorem checkEscapeGo_bounds : ∀ (fuel i : Nat) (l : List Char),
    ∀ j ∈ checkEscapeGo fuel i l, i ≤ j ∧ j < i + l.length := by
  intro fuel
  induction fuel with
  | zero => intro i l j h; simp [checkEscapeGo] at h
  | succ fuel ih =>
      intro i l j h
      rw [checkEscapeGo.eq_def] at h
      dsimp only at h
      split at h
      · simp at h
      · rename_i c rest
        split at h
        · obtain ⟨h1, h2⟩ := ih (i + 2) rest j h
          simp only [List.length_cons]
          omega
        · split at h
          · split at h
            · rename_i hhex
              obtain ⟨h1, h2⟩ := ih (i + 6) (rest.drop 4) j h
              have h4 : 4 ≤ rest.length := by
                simp only [hex4, Bool.and_eq_true, decide_eq_true_eq] at hhex
                have := hhex.1
                rw [List.length_take] at this
                omega
              rw [List.length_drop] at h2
              simp only [List.length_cons]
              omega
            · rcases List.mem_cons.mp h with h | h
              · subst h; simp only [List.length_cons]; omega
              · obtain ⟨h1, h2⟩ := ih (i + 2) rest j h
                simp only [List.length_cons]
                omega
          · rcases List.mem_cons.mp h with h | h
            · subst h; simp only [List.length_cons]; omega
            · obtain ⟨h1, h2⟩ := ih (i + 2) rest j h
              simp only [List.length_cons]
              omega
      · rw [List.mem_singleton] at h
        subst h
        simp only [List.length_cons, List.length_nil]
        omega
      · obtain ⟨h1, h2⟩ := ih (i + 1) _ j h
        simp only [List.length_cons]
        omega

theorem checkEscapeGo_sorted : ∀ (fuel i : Nat) (l : List Char),
    (checkEscapeGo fuel i l).Pairwise (· ≤ ·) := by
  intro fuel
  induction fuel with
  | zero => intro i l; simp [checkEscapeGo]
  | succ fuel ih =>
      intro i l
      rw [checkEscapeGo.eq_def]
      dsimp only
      split
      · simp
      · split
        · exact ih _ _
        · split
          · split
            · exact ih _ _
            · refine List.pairwise_cons.mpr ⟨?_, ih _ _⟩
              intro j hj
              have := (checkEscapeGo_bounds fuel (i + 2) _ j hj).1
              omega
          · refine List.pairwise_cons.mpr ⟨?_, ih _ _⟩
            intro j hj
            have := (checkEscapeGo_bounds fuel (i + 2) _ j hj).1
            omega
      · simp
      · exact ih _ _

theorem checkEscape_sorted (s : List Char) : (checkEscape s).Pairwise (· ≤ ·) :=
  checkEscapeGo_sorted _ _ _

theorem checkEscape_lt (s : List Char) : ∀ j ∈ checkEscape s, j < s.length := by
  intro j hj
  have := (checkEscapeGo_bounds s.length 0 s j hj).2
  omega

theorem jinv_startN (k : SyntaxKind) (st : PState) (h : JInv st) : JInv (startN k st) := h

theorem jinv_finishN (st : PState) (h : JInv st) : JInv (finishN st) := h

theorem jinv_emitToken (k : SyntaxKind) (t : List Char) (st : PState) (h : JInv st) :
    JInv (emitToken k t st) :=
  ⟨h.1, by intro t' ht'; simp [emitToken] at ht'⟩

/-- The trivia branches of the draining loop: shift the span past the token,
add a (sorted, in-token) batch of char-class errors, emit the token. -/
theorem jinv_trivia (st st1 : PState) (k : SyntaxKind) (txt : List Char)
    (msg : String) (idxs : List Nat)
    (hj : JInv st)
    (hsorted : idxs.Pairwise (· ≤ ·))
    (hbound : ∀ i ∈ idxs, i < txt.length)
    (he : st1.errors = st.errors)
    (hs : st1.tokenStart = st.tokenEnd)
    (hE : st1.tokenEnd = st.tokenEnd + txt.length) :
    JInv (emitToken k txt (addPointErrors msg st.tokenEnd idxs st1)) ∧
    (emitToken k txt (addPointErrors msg st.tokenEnd idxs st1)).current = none ∧
    Mono st (emitToken k txt (addPointErrors msg st.tokenEnd idxs st1)) := by
  obtain ⟨⟨hp, hb, hse⟩, _⟩ := hj
  have hp1 : st1.errors.Pairwise okPair := by rw [he]; exact hp
  have hok : ∀ a ∈ st1.errors, ∀ i ∈ idxs, okPair a ⟨st.tokenEnd + i, st.tokenEnd + i, msg⟩ := by
    intro a ha i _
    rw [he] at ha
    exact Or.inl (le_trans (hb a ha) (Nat.le_add_right _ _))
  obtain ⟨hq, hm⟩ := jinv_addPointErrors msg st.tokenEnd idxs st1 hp1 hok hsorted
  obtain ⟨hsp1, hsp2⟩ := addPointErrors_spans msg st.tokenEnd idxs st1
  refine ⟨⟨⟨hq, ?_, ?_⟩, ?_⟩, rfl, ?_, ?_⟩
  · intro e hme
    show e.start ≤ (addPointErrors msg st.tokenEnd idxs st1).tokenEnd
    rw [hsp2, hE]
    rcases hm e hme with h | ⟨i, hi, rfl⟩
    · rw [he] at h
      exact le_trans (hb e h) (Nat.le_add_right _ _)
    · exact Nat.add_lt_add_left (hbound i hi) _ |>.le
  · show (addPointErrors msg st.tokenEnd idxs st1).tokenStart ≤
      (addPointErrors msg st.tokenEnd idxs st1).tokenEnd
    rw [hsp1, hsp2, hs, hE]
    exact Nat.le_add_right _ _
  · intro t' ht'
    simp [emitToken] at ht'
  · show st.tokenStart ≤ (addPointErrors msg st.tokenEnd idxs st1).tokenStart
    rw [hsp1, hs]
    exact hse
  · show st.tokenEnd ≤ (addPointErrors msg st.tokenEnd idxs st1).tokenEnd
    rw [hsp2, hE]
    exact Nat.le_add_right _ _

/-- The `ERROR` branch of the draining loop. -/
theorem jinv_errTok (st st1 : PState) (txt : List Char)
    (hj : JInv st)
    (he : st1.errors = st.errors)
    (hs : st1.tokenStart = st.tokenEnd)
    (hE : st1.tokenEnd = st.tokenEnd + txt.length) :
    JInv (addError (emitToken ERROR txt st1)
      ⟨st.tokenEnd, st.tokenEnd + txt.length, "unexpected token"⟩) ∧
    (addError (emitToken ERROR txt st1)
      ⟨st.tokenEnd, st.tokenEnd + txt.length, "unexpected token"⟩).current = none ∧
    Mono st (addError (emitToken ERROR txt st1)
      ⟨st.tokenEnd, st.tokenEnd + txt.length, "unexpected token"⟩) := by
  obtain ⟨⟨hp, hb, hse⟩, _⟩ := hj
  have hj1 : JInv (emitToken ERROR txt st1) := by
    refine ⟨⟨?_, ?_, ?_⟩, ?_⟩
    · show st1.errors.Pairwise okPair
      rw [he]; exact hp
    · intro e hme
      show e.start ≤ st1.tokenEnd
      rw [hE]
      rw [show (emitToken ERROR txt st1).errors = st1.errors from rfl, he] at hme
      exact le_trans (hb e hme) (Nat.le_add_right _ _)
    · show st1.tokenStart ≤ st1.tokenEnd
      rw [hs, hE]; exact Nat.le_add_right _ _
    · intro t' ht'
      simp [emitToken] at ht'
  have hja := jinv_addError (emitToken ERROR txt st1)
    ⟨st.tokenEnd, st.tokenEnd + txt.length, "unexpected token"⟩ hj1
    (by
      intro a ha
      rw [show (emitToken ERROR txt st1).errors = st1.errors from rfl, he] at ha
      exact Or.inl (hb a ha))
    (by show st.tokenEnd ≤ st1.tokenEnd; rw [hE]; exact Nat.le_add_right _ _)
    (by intro t' ht'; simp [emitToken] at ht')
  obtain ⟨a1, a2⟩ := addError_spans (emitToken ERROR txt st1)
    ⟨st.tokenEnd, st.tokenEnd + txt.length, "unexpected token"⟩
  refine ⟨hja, ?_, ?_, ?_⟩
  · rw [addError_current]; rfl
  · rw [a1]
    show st.tokenStart ≤ st1.tokenStart
    rw [hs]; exact hse
  · rw [a2]
    show st.tokenEnd ≤ st1.tokenEnd
    rw [hE]; exact Nat.le_add_right _ _

/-- The significant-token branch of the draining loop. -/
theorem jinv_sig (st res : PState) (t : Token)
    (hj : JInv st)
    (he : res.errors = st.errors) (hc : res.current = some t)
    (hs : res.tokenStart = st.tokenEnd)
    (hE : res.tokenEnd = st.tokenEnd + t.text.length) :
    JInv res ∧ Mono st res := by
  obtain ⟨⟨hp, hb, hse⟩, _⟩ := hj
  refine ⟨⟨⟨?_, ?_, ?_⟩, ?_⟩, ?_, ?_⟩
  · rw [he]; exact hp
  · intro e hme
    rw [he] at hme
    rw [hE]
    exact le_trans (hb e hme) (Nat.le_add_right _ _)
  · rw [hs, hE]; exact Nat.le_add_right _ _
  · intro t' ht'
    rw [hc] at ht'
    injection ht' with ht'
    subst ht'
    constructor
    · intro e hme
      rw [he] at hme
      rw [hs]
      exact hb e hme
    · rw [hE, hs]
  · rw [hs]; exact hse
  · rw [hE]; exact Nat.le_add_right _ _

theorem jinv_exhaust (st res : PState)
    (hj : JInv st)
    (he : res.errors = st.errors) (hc : res.current = none)
    (hs : res.tokenStart = st.tokenEnd) (hE : res.tokenEnd = st.tokenEnd) :
    JInv res ∧ Mono st res := by
  obtain ⟨⟨hp, hb, hse⟩, _⟩ := hj
  refine ⟨⟨⟨?_, ?_, ?_⟩, ?_⟩, ?_, ?_⟩
  · rw [he]; exact hp
  · intro e hme; rw [he] at hme; rw [hE]; exact hb e hme
  · rw [hs, hE]
  · intro t' ht'; rw [hc] at ht'; exact absurd ht' (by simp)
  · rw [hs]; exact hse
  · rw [hE]

/-- The lexer-draining loop preserves the positional invariant and moves the
span forward. -/
theorem jinv_nextTokenGo : ∀ (toks : List Token) (st : PState),
    JInv st →
    JInv (nextTokenGo toks st) ∧ Mono st (nextTokenGo toks st) := by
  intro toks
  induction toks with
  | nil =>
      intro st hj
      exact jinv_exhaust st _ hj rfl rfl rfl rfl
  | cons t rest ih =>
      intro st hj
      rw [nextTokenGo.eq_def]
      dsimp only
      cases hk : t.kind
      case COMMENT_LINE =>
        obtain ⟨h1, h2, h3⟩ := jinv_trivia st
          { st with tokens := rest, tokenStart := st.tokenEnd,
                    tokenEnd := st.tokenEnd + t.text.length }
          COMMENT_LINE t.text "invalid character in comment" (commentErrIdxs false t.text)
          hj (commentErrIdxs_sorted false t.text) (commentErrIdxs_lt false t.text) rfl rfl rfl
        obtain ⟨h4, h5⟩ := ih _ h1
        exact ⟨h4, Mono.trans h3 h5⟩
      case COMMENT_BLOCK =>
        obtain ⟨h1, h2, h3⟩ := jinv_trivia st
          { st with tokens := rest, tokenStart := st.tokenEnd,
                    tokenEnd := st.tokenEnd + t.text.length }
          COMMENT_BLOCK t.text "invalid character in comment" (commentErrIdxs true t.text)
          hj (commentErrIdxs_sorted true t.text) (commentErrIdxs_lt true t.text) rfl rfl rfl
        obtain ⟨h4, h5⟩ := ih _ h1
        exact ⟨h4, Mono.trans h3 h5⟩
      case WHITESPACE =>
        obtain ⟨h1, h2, h3⟩ := jinv_trivia st
          { st with tokens := rest, tokenStart := st.tokenEnd,
                    tokenEnd := st.tokenEnd + t.text.length }
          WHITESPACE t.text "" [] hj (List.Pairwise.nil) (by intro i hi; simp at hi) rfl rfl rfl
        obtain ⟨h4, h5⟩ := ih _ h1
        exact ⟨h4, Mono.trans h3 h5⟩
      case NEWLINE =>
        obtain ⟨h1, h2, h3⟩ := jinv_trivia st
          { st with tokens := rest, tokenStart := st.tokenEnd,
                    tokenEnd := st.tokenEnd + t.text.length }
          NEWLINE t.text "" [] hj (List.Pairwise.nil) (by intro i hi; simp at hi) rfl rfl rfl
        obtain ⟨h4, h5⟩ := ih _ h1
        exact ⟨h4, Mono.trans h3 h5⟩
      case ERROR =>
        obtain ⟨h1, h2, h3⟩ := jinv_errTok st
          { st with tokens := rest, tokenStart := st.tokenEnd,
                    tokenEnd := st.tokenEnd + t.text.length }
          t.text hj rfl rfl rfl
        obtain ⟨h4, h5⟩ := ih _ h1
        exact ⟨h4, Mono.trans h3 h5⟩
      all_goals exact jinv_sig st _ t hj rfl rfl rfl rfl

theorem jinv_nextToken (st : PState) (hj : JInv st) :
    JInv (nextToken st) ∧ Mono st (nextToken st) := by
  unfold nextToken
  exact jinv_nextTokenGo st.tokens { st with current := none }
    ⟨hj.1, by intro t ht; simp at ht⟩

theorem jinv_peek (st : PState) (hj : JInv st) :
    JInv (peekToken st).2 ∧ Mono st (peekToken st).2 := by
  unfold peekToken
  split
  · exact ⟨hj, Mono.rfl st⟩
  · dsimp only
    exact jinv_nextToken st hj

theorem nextTokenGo_none_spans : ∀ (toks : List Token) (st : PState),
    (nextTokenGo toks st).current = none →
    (nextTokenGo toks st).tokenStart = (nextTokenGo toks st).tokenEnd := by
  intro toks
  induction toks with
  | nil => intro st _; rfl
  | cons t rest ih =>
      intro st h
      revert h
      rw [nextTokenGo.eq_def]
      dsimp only
      cases hk : t.kind <;> intro h
      case COMMENT_LINE => exact ih _ h
      case COMMENT_BLOCK => exact ih _ h
      case WHITESPACE => exact ih _ h
      case NEWLINE => exact ih _ h
      case ERROR => exact ih _ h
      all_goals simp at h

theorem peek_none_spans (st : PState) (h : (peekToken st).1 = none) :
    (peekToken st).2.tokenStart = (peekToken st).2.tokenEnd := by
  unfold peekToken at h ⊢
  rcases hc : st.current with _ | t
  · rw [hc] at h
    dsimp only at h ⊢
    unfold nextToken at h ⊢
    exact nextTokenGo_none_spans _ _ h
  · rw [hc] at h
    simp at h

theorem jinv_mustPeek (st : PState) (hj : JInv st) :
    JInv (mustPeekToken st).2 ∧ Mono st (mustPeekToken st).2 := by
  unfold mustPeekToken
  rcases hp : peekToken st with ⟨o, st'⟩
  obtain ⟨hj', hm'⟩ : JInv st' ∧ Mono st st' := by
    have := jinv_peek st hj
    rwa [hp] at this
  cases o with
  | some t => exact ⟨hj', hm'⟩
  | none =>
      dsimp only
      have hspan : st'.tokenStart = st'.tokenEnd := by
        have h1 := peek_none_spans st (by rw [hp])
        rwa [hp] at h1
      refine ⟨jinv_addError st' _ hj' ?_ ?_ ?_, Mono.trans hm' (jinv_addError_mono st' _)⟩
      · intro a ha
        exact Or.inl (le_trans (hj'.1.2.1 a ha) hspan.ge)
      · exact hj'.1.2.2
      · intro t' ht'
        exact le_rfl

theorem jinv_mustPeekEof (st : PState) (hj : JInv st) :
    JInv (mustPeekEof st).2 ∧ Mono st (mustPeekEof st).2 := by
  unfold mustPeekEof
  rcases hp : peekToken st with ⟨o, st'⟩
  obtain ⟨hj', hm'⟩ : JInv st' ∧ Mono st st' := by
    have := jinv_peek st hj
    rwa [hp] at this
  cases o with
  | some t =>
      dsimp only
      have hc : st'.current = some t := peek_some_current st t st' hp
      refine ⟨jinv_addError st' _ hj' ?_ ?_ ?_, Mono.trans hm' (jinv_addError_mono st' _)⟩
      · intro a ha
        exact Or.inl ((hj'.2 t hc).1 a ha)
      · exact hj'.1.2.2
      · intro t' ht'
        exact le_rfl
  | none => exact ⟨hj', hm'⟩

theorem jinv_consumeCurrent (st : PState) (hj : JInv st) :
    JInv (consumeCurrent st).2 ∧ Mono st (consumeCurrent st).2 := by
  unfold consumeCurrent
  rcases hp : peekToken st with ⟨o, st'⟩
  obtain ⟨hj', hm'⟩ : JInv st' ∧ Mono st st' := by
    have := jinv_peek st hj
    rwa [hp] at this
  cases o with
  | some t => exact ⟨jinv_emitToken t.kind t.text st' hj', hm'⟩
  | none => exact ⟨hj', hm'⟩

theorem jinv_consumeError (msg : String) (st : PState) (t0 : Token)
    (hcur : st.current = some t0) (hj : JInv st) :
    JInv (consumeErrorToken msg st).2 ∧ Mono st (consumeErrorToken msg st).2 := by
  unfold consumeErrorToken
  have h1 : JInv (addError st ⟨st.tokenStart, st.tokenEnd, msg⟩) :=
    jinv_addError st _ hj
      (fun a ha => Or.inl ((hj.2 t0 hcur).1 a ha))
      hj.1.2.2
      (fun t ht => le_rfl)
  have hm1 : Mono st (addError st ⟨st.tokenStart, st.tokenEnd, msg⟩) :=
    jinv_addError_mono st _
  dsimp only
  rw [addError_current, hcur]
  dsimp only
  exact ⟨jinv_emitToken ERROR t0.text _ h1, hm1⟩

theorem jinv_mustTokenOr (k : SyntaxKind) (msg : String) (st : PState) (hj : JInv st) :
    JInv (mustTokenOr k msg st).2 ∧ Mono st (mustTokenOr k msg st).2 := by
  unfold mustTokenOr
  rcases hp : mustPeekToken st with ⟨o, st'⟩
  obtain ⟨hj', hm'⟩ : JInv st' ∧ Mono st st' := by
    have := jinv_mustPeek st hj
    rwa [hp] at this
  cases o with
  | none => exact ⟨hj', hm'⟩
  | some t =>
      dsimp only
      have hc : st'.current = some t := mustPeek_some_current st t st' hp
      split
      · obtain ⟨h1, h2⟩ := jinv_consumeCurrent st' hj'
        exact ⟨h1, Mono.trans hm' h2⟩
      · refine ⟨jinv_addError st' _ hj' ?_ ?_ ?_, Mono.trans hm' (jinv_addError_mono st' _)⟩
        · intro a ha
          exact Or.inl ((hj'.2 t hc).1 a ha)
        · exact hj'.1.2.2
        · intro t' ht'
          exact le_rfl

theorem jm_startN (k : SyntaxKind) {st a : PState} (h : JInv a ∧ Mono st a) :
    JInv (startN k a) ∧ Mono st (startN k a) :=
  ⟨jinv_startN k a h.1, h.2⟩

theorem jm_finishN {st a : PState} (h : JInv a ∧ Mono st a) :
    JInv (finishN a) ∧ Mono st (finishN a) :=
  ⟨jinv_finishN a h.1, h.2⟩

theorem jm_peek {st a : PState} (h : JInv a ∧ Mono st a) :
    JInv (peekToken a).2 ∧ Mono st (peekToken a).2 :=
  ⟨(jinv_peek a h.1).1, Mono.trans h.2 (jinv_peek a h.1).2⟩

theorem jm_mustPeek {st a : PState} (h : JInv a ∧ Mono st a) :
    JInv (mustPeekToken a).2 ∧ Mono st (mustPeekToken a).2 :=
  ⟨(jinv_mustPeek a h.1).1, Mono.trans h.2 (jinv_mustPeek a h.1).2⟩

theorem jm_mustPeekEof {st a : PState} (h : JInv a ∧ Mono st a) :
    JInv (mustPeekEof a).2 ∧ Mono st (mustPeekEof a).2 :=
  ⟨(jinv_mustPeekEof a h.1).1, Mono.trans h.2 (jinv_mustPeekEof a h.1).2⟩

theorem jm_consumeCurrent {st a : PState} (h : JInv a ∧ Mono st a) :
    JInv (consumeCurrent a).2 ∧ Mono st (consumeCurrent a).2 :=
  ⟨(jinv_consumeCurrent a h.1).1, Mono.trans h.2 (jinv_consumeCurrent a h.1).2⟩

theorem jm_mustTokenOr (k : SyntaxKind) (msg : String) {st a : PState}
    (h : JInv a ∧ Mono st a) :
    JInv (mustTokenOr k msg a).2 ∧ Mono st (mustTokenOr k msg a).2 :=
  ⟨(jinv_mustTokenOr k msg a h.1).1, Mono.trans h.2 (jinv_mustTokenOr k msg a h.1).2⟩

theorem jm_consumeError (msg : String) (t : Token) {st a : PState}
    (hc : a.current = some t) (h : JInv a ∧ Mono st a) :
    JInv (consumeErrorToken msg a).2 ∧ Mono st (consumeErrorToken msg a).2 :=
  ⟨(jinv_consumeError msg a t hc h.1).1,
   Mono.trans h.2 (jinv_consumeError msg a t hc h.1).2⟩

/-- The `unexpected "@"` error of the object/array loops: added at the span of
the peeked token, so after every present error. -/
theorem jm_unexpectedAt (msg : String) (t : Token) {st a : PState}
    (hc : a.current = some t) (h : JInv a ∧ Mono st a) :
    JInv (addError a ⟨a.tokenStart, a.tokenEnd, msg⟩) ∧
    Mono st (addError a ⟨a.tokenStart, a.tokenEnd, msg⟩) :=
  ⟨jinv_addError a _ h.1 (fun x hx => Or.inl ((h.1.2 t hc).1 x hx)) h.1.1.2.2
      (fun _ _ => le_rfl),
   Mono.trans h.2 (jinv_addError_mono a _)⟩

/-- The `expect ","` error: recorded at the *saved* span `s0..e0` of the value
before its trailing annotations, so possibly out of document order — admissible
by message. -/
theorem jm_expectComma (s0 e0 : Nat) {st a : PState}
    (hs0 : s0 ≤ a.tokenStart) (h : JInv a ∧ Mono st a) :
    JInv (addError a ⟨s0, e0, "expect \",\""⟩) ∧
    Mono st (addError a ⟨s0, e0, "expect \",\""⟩) :=
  ⟨jinv_addError a _ h.1 (fun x _ => Or.inr (Or.inl rfl))
      (le_trans hs0 h.1.1.2.2) (fun _ _ => hs0),
   Mono.trans h.2 (jinv_addError_mono a _)⟩

/-- One in-token error batch followed by consuming the token (the backtick
string and key-string branches). -/
theorem jm_str1 (t : Token) (msg : String) (idxs : List Nat) {st a : PState}
    (hc : a.current = some t)
    (hs : idxs.Pairwise (· ≤ ·)) (hb : ∀ i ∈ idxs, i < t.text.length)
    (h : JInv a ∧ Mono st a) :
    JInv (consumeCurrent (addPointErrors msg a.tokenStart idxs a)).2 ∧
    Mono st (consumeCurrent (addPointErrors msg a.tokenStart idxs a)).2 := by
  obtain ⟨⟨⟨hp, hbd, hse⟩, hcd⟩, hm⟩ := h
  obtain ⟨hC, hD⟩ := hcd t hc
  have hok : ∀ x ∈ a.errors, ∀ i ∈ idxs, okPair x ⟨a.tokenStart + i, a.tokenStart + i, msg⟩ :=
    fun x hx i _ => Or.inl (le_trans (hC x hx) (Nat.le_add_right _ _))
  obtain ⟨hq, hmem⟩ := jinv_addPointErrors msg a.tokenStart idxs a hp hok hs
  obtain ⟨hsp1, hsp2⟩ := addPointErrors_spans msg a.tokenStart idxs a
  have hc2 : (addPointErrors msg a.tokenStart idxs a).current = some t := by
    rw [addPointErrors_current]; exact hc
  rw [consumeCurrent_of_current _ t hc2]
  dsimp only
  refine ⟨⟨⟨hq, ?_, ?_⟩, ?_⟩, ?_, ?_⟩
  · intro e he
    show e.start ≤ (addPointErrors msg a.tokenStart idxs a).tokenEnd
    rw [hsp2, hD]
    rcases hmem e he with hx | ⟨i, hi, rfl⟩
    · exact le_trans (hC e hx) (Nat.le_add_right _ _)
    · exact (Nat.add_lt_add_left (hb i hi) _).le
  · show (addPointErrors msg a.tokenStart idxs a).tokenStart ≤
      (addPointErrors msg a.tokenStart idxs a).tokenEnd
    rw [hsp1, hsp2]; exact hse
  · intro t' ht'
    simp [emitToken] at ht'
  · show st.tokenStart ≤ (addPointErrors msg a.tokenStart idxs a).tokenStart
    rw [hsp1]; exact hm.1
  · show st.tokenEnd ≤ (addPointErrors msg a.tokenStart idxs a).tokenEnd
    rw [hsp2]; exact hm.2

/-- The two-pass string batches (`invalid character in string` then
`invalid escape sequence`) followed by consuming the token. The second batch
may interleave out of order with the first; the message pair is admissible. -/
theorem jm_str2 (t : Token) (idx1 idx2 : List Nat) {st a : PState}
    (hc : a.current = some t)
    (h1s : idx1.Pairwise (· ≤ ·)) (h1b : ∀ i ∈ idx1, i < t.text.length)
    (h2s : idx2.Pairwise (· ≤ ·)) (h2b : ∀ i ∈ idx2, i < t.text.length)
    (h : JInv a ∧ Mono st a) :
    JInv (consumeCurrent (addPointErrors "invalid escape sequence" a.tokenStart idx2
      (addPointErrors "invalid character in string" a.tokenStart idx1 a))).2 ∧
    Mono st (consumeCurrent (addPointErrors "invalid escape sequence" a.tokenStart idx2
      (addPointErrors "invalid character in string" a.tokenStart idx1 a))).2 := by
  obtain ⟨⟨⟨hp, hbd, hse⟩, hcd⟩, hm⟩ := h
  obtain ⟨hC, hD⟩ := hcd t hc
  have hok1 : ∀ x ∈ a.errors, ∀ i ∈ idx1,
      okPair x ⟨a.tokenStart + i, a.tokenStart + i, "invalid character in string"⟩ :=
    fun x hx i _ => Or.inl (le_trans (hC x hx) (Nat.le_add_right _ _))
  obtain ⟨hq1, hmem1⟩ := jinv_addPointErrors "invalid character in string"
    a.tokenStart idx1 a hp hok1 h1s
  obtain ⟨hsp11, hsp12⟩ := addPointErrors_spans "invalid character in string"
    a.tokenStart idx1 a
  have hok2 : ∀ x ∈ (addPointErrors "invalid character in string" a.tokenStart idx1 a).errors,
      ∀ i ∈ idx2, okPair x ⟨a.tokenStart + i, a.tokenStart + i, "invalid escape sequence"⟩ := by
    intro x hx i _
    rcases hmem1 x hx with hx' | ⟨j, _, rfl⟩
    · exact Or.inl (le_trans (hC x hx') (Nat.le_add_right _ _))
    · exact Or.inr (Or.inr ⟨rfl, rfl⟩)
  obtain ⟨hq2, hmem2⟩ := jinv_addPointErrors "invalid escape sequence" a.tokenStart idx2
    (addPointErrors "invalid character in string" a.tokenStart idx1 a) hq1 hok2 h2s
  obtain ⟨hsp21, hsp22⟩ := addPointErrors_spans "invalid escape sequence" a.tokenStart idx2
    (addPointErrors "invalid character in string" a.tokenStart idx1 a)
  have hc2 : (addPointErrors "invalid escape sequence" a.tokenStart idx2
      (addPointErrors "invalid character in string" a.tokenStart idx1 a)).current = some t := by
    rw [addPointErrors_current, addPointErrors_current]; exact hc
  rw [consumeCurrent_of_current _ t hc2]
  dsimp only
  refine ⟨⟨⟨hq2, ?_, ?_⟩, ?_⟩, ?_, ?_⟩
  · intro e he
    show e.start ≤ (addPointErrors "invalid escape sequence" a.tokenStart idx2
      (addPointErrors "invalid character in string" a.tokenStart idx1 a)).tokenEnd
    rw [hsp22, hsp12, hD]
    rcases hmem2 e he with hx | ⟨i, hi, rfl⟩
    · rcases hmem1 e hx with hx' | ⟨j, hj, rfl⟩
      · exact le_trans (hC e hx') (Nat.le_add_right _ _)
      · exact (Nat.add_lt_add_left (h1b j hj) _).le
    · exact (Nat.add_lt_add_left (h2b i hi) _).le
  · show (addPointErrors "invalid escape sequence" a.tokenStart idx2
        (addPointErrors "invalid character in string" a.tokenStart idx1 a)).tokenStart ≤
      (addPointErrors "invalid escape sequence" a.tokenStart idx2
        (addPointErrors "invalid character in string" a.tokenStart idx1 a)).tokenEnd
    rw [hsp21, hsp22, hsp11, hsp12]; exact hse
  · intro t' ht'
    simp [emitToken] at ht'
  · show st.tokenStart ≤ (addPointErrors "invalid escape sequence" a.tokenStart idx2
      (addPointErrors "invalid character in string" a.tokenStart idx1 a)).tokenStart
    rw [hsp21, hsp11]; exact hm.1
  · show st.tokenEnd ≤ (addPointErrors "invalid escape sequence" a.tokenStart idx2
      (addPointErrors "invalid character in string" a.tokenStart idx1 a)).tokenEnd
    rw [hsp22, hsp12]; exact hm.2

set_option maxHeartbeats 2000000 in
/-- Every parser function preserves the positional error invariant and moves
the lexer span monotonically forward. -/
theorem jinv_parseFns (fuel : Nat) :
    (∀ st, JInv st → JInv (parseRoot fuel st).2 ∧ Mono st (parseRoot fuel st).2) ∧
    (∀ st, JInv st → JInv (parseAnnos fuel st).2 ∧ Mono st (parseAnnos fuel st).2) ∧
    (∀ st, JInv st → JInv (annosLoop fuel st).2 ∧ Mono st (annosLoop fuel st).2) ∧
    (∀ st, JInv st → JInv (parseAnnoEntry fuel st).2 ∧ Mono st (parseAnnoEntry fuel st).2) ∧
    (∀ st, JInv st → JInv (parseAnnoValue fuel st).2 ∧ Mono st (parseAnnoValue fuel st).2) ∧
    (∀ st, JInv st → JInv (parseEntry fuel st).2 ∧ Mono st (parseEntry fuel st).2) ∧
    (∀ st, JInv st → JInv (parseValue fuel st).2 ∧ Mono st (parseValue fuel st).2) ∧
    (∀ k st, JInv st → JInv (parseValueWithAnnos k fuel st).2 ∧
      Mono st (parseValueWithAnnos k fuel st).2) ∧
    (∀ k s0 e0 b st, JInv st → s0 ≤ st.tokenStart →
      JInv (parseVWATail k s0 e0 b fuel st).2 ∧ Mono st (parseVWATail k s0 e0 b fuel st).2) ∧
    (∀ st, JInv st → JInv (parseObject fuel st).2 ∧ Mono st (parseObject fuel st).2) ∧
    (∀ st, JInv st → JInv (objectLoop fuel st).2 ∧ Mono st (objectLoop fuel st).2) ∧
    (∀ st, JInv st → JInv (parseArray fuel st).2 ∧ Mono st (parseArray fuel st).2) ∧
    (∀ st, JInv st → JInv (arrayLoop fuel st).2 ∧ Mono st (arrayLoop fuel st).2) ∧
    (∀ st, JInv st → JInv (parseKey fuel st).2 ∧ Mono st (parseKey fuel st).2) := by
  induction fuel with
  | zero =>
      refine ⟨?_, ?_, ?_, ?_, ?_, ?_, ?_, ?_, ?_, ?_, ?_, ?_, ?_, ?_⟩ <;>
        intros <;> exact ⟨by assumption, Mono.rfl _⟩
  | succ n ih =>
      obtain ⟨ihRoot, ihAnnos, ihALoop, ihAEntry, ihAValue, ihEntry, ihValue,
        ihVWA, ihTail, ihObj, ihOLoop, ihArr, ihArrLoop, ihKey⟩ := ih
      refine ⟨?_, ?_, ?_, ?_, ?_, ?_, ?_, ?_, ?_, ?_, ?_, ?_, ?_, ?_⟩
      -- parseRoot
      · intro st hj
        rw [parseRoot.eq_def]; dsimp only
        rcases h1 : parseAnnos n st with ⟨r1, st1⟩
        have e1 := ihAnnos st hj; rw [h1] at e1; dsimp only at e1
        cases r1 <;> dsimp only
        · rcases h2 : parseValue n (startN VALUE st1) with ⟨r2, st2⟩
          have e2 := ihValue (startN VALUE st1) (jinv_startN VALUE st1 e1.1)
          rw [h2] at e2; dsimp only at e2
          have e2' : JInv st2 ∧ Mono st st2 := ⟨e2.1, Mono.trans e1.2 e2.2⟩
          cases r2 <;> dsimp only
          · exact jm_mustPeekEof (jm_finishN e2')
          · exact jm_finishN e2'
          · exact jm_finishN e2'
        · exact e1
        · exact e1
      -- parseAnnos
      · intro st hj
        rw [parseAnnos.eq_def]; dsimp only
        rcases hp : peekToken st with ⟨t?, st1⟩
        have ep := jm_peek ⟨hj, Mono.rfl st⟩; rw [hp] at ep; dsimp only at ep
        cases t? with
        | none => exact ep
        | some t =>
            dsimp only
            split
            · rcases h1 : annosLoop n (startN ANNOS st1) with ⟨r1, st2⟩
              have e1 := ihALoop (startN ANNOS st1) (jinv_startN ANNOS st1 ep.1)
              rw [h1] at e1; dsimp only at e1
              have e1' : JInv st2 ∧ Mono st st2 := ⟨e1.1, Mono.trans ep.2 e1.2⟩
              cases r1 <;> dsimp only
              · exact jm_finishN e1'
              · exact e1'
              · exact e1'
            · exact ep
      -- annosLoop
      · intro st hj
        rw [annosLoop.eq_def]; dsimp only
        rcases hp : peekToken st with ⟨t?, st1⟩
        have ep := jm_peek ⟨hj, Mono.rfl st⟩; rw [hp] at ep; dsimp only at ep
        cases t? with
        | none => exact ep
        | some t =>
            dsimp only
            split
            · rcases h1 : parseAnnoEntry n (startN ENTRY st1) with ⟨r1, st2⟩
              have e1 := ihAEntry (startN ENTRY st1) (jinv_startN ENTRY st1 ep.1)
              rw [h1] at e1; dsimp only at e1
              have e1' : JInv st2 ∧ Mono st st2 := ⟨e1.1, Mono.trans ep.2 e1.2⟩
              cases r1 <;> dsimp only
              · have e2 := ihALoop (finishN st2) (jinv_finishN st2 e1'.1)
                exact ⟨e2.1, Mono.trans e1'.2 e2.2⟩
              · exact jm_finishN e1'
              · exact jm_finishN e1'
            · exact ep
      -- parseAnnoEntry
      · intro st hj
        rw [parseAnnoEntry.eq_def]; dsimp only
        rcases h1 : mustTokenOr AT "expected \"@\"" st with ⟨r1, st1⟩
        have e1 := jm_mustTokenOr AT "expected \"@\"" ⟨hj, Mono.rfl st⟩
        rw [h1] at e1; dsimp only at e1
        cases r1 <;> dsimp only
        · rcases h2 : parseKey n (startN KEY st1) with ⟨r2, st2⟩
          have e2 := ihKey (startN KEY st1) (jinv_startN KEY st1 e1.1)
          rw [h2] at e2; dsimp only at e2
          have e2' : JInv st2 ∧ Mono st st2 := ⟨e2.1, Mono.trans e1.2 e2.2⟩
          cases r2 <;> dsimp only
          · rcases hp : peekToken (finishN st2) with ⟨t?, st3⟩
            have ep := jm_peek (jm_finishN e2'); rw [hp] at ep; dsimp only at ep
            cases t? with
            | none => dsimp only; exact ep
            | some t =>
                dsimp only
                split
                · rcases h3 : parseAnnoValue n (startN VALUE st3) with ⟨r3, st4⟩
                  have e3 := ihAValue (startN VALUE st3) (jinv_startN VALUE st3 ep.1)
                  rw [h3] at e3; dsimp only at e3
                  have e3' : JInv st4 ∧ Mono st st4 := ⟨e3.1, Mono.trans ep.2 e3.2⟩
                  cases r3 <;> dsimp only
                  · exact jm_finishN e3'
                  · exact jm_finishN e3'
                  · exact jm_finishN e3'
                · exact ep
          · exact jm_finishN e2'
          · exact jm_finishN e2'
        · exact e1
        · exact e1
      -- parseAnnoValue
      · intro st hj
        rw [parseAnnoValue.eq_def]; dsimp only
        rcases h1 : mustTokenOr PARENTHESES_START "expected \"(\"" st with ⟨r1, st1⟩
        have e1 := jm_mustTokenOr PARENTHESES_START "expected \"(\"" ⟨hj, Mono.rfl st⟩
        rw [h1] at e1; dsimp only at e1
        cases r1 <;> dsimp only
        · rcases h2 : parseValue n (startN VALUE st1) with ⟨r2, st2⟩
          have e2 := ihValue (startN VALUE st1) (jinv_startN VALUE st1 e1.1)
          rw [h2] at e2; dsimp only at e2
          have e2' : JInv st2 ∧ Mono st st2 := ⟨e2.1, Mono.trans e1.2 e2.2⟩
          cases r2 <;> dsimp only
          · exact jm_mustTokenOr PARENTHESES_END "expected \")\"" (jm_finishN e2')
          · exact jm_finishN e2'
          · exact jm_finishN e2'
        · exact e1
        · exact e1
      -- parseEntry
      · intro st hj
        rw [parseEntry.eq_def]; dsimp only
        rcases h1 : parseKey n (startN KEY st) with ⟨r1, st1⟩
        have e1 := ihKey (startN KEY st) (jinv_startN KEY st hj)
        rw [h1] at e1; dsimp only at e1
        have e1' : JInv st1 ∧ Mono st st1 := ⟨e1.1, e1.2⟩
        cases r1 <;> dsimp only
        · rcases h2 : mustTokenOr COLON "expected \":\"" (finishN st1) with ⟨r2, st2⟩
          have e2 := jm_mustTokenOr COLON "expected \":\"" (jm_finishN e1')
          rw [h2] at e2; dsimp only at e2
          cases r2 <;> dsimp only
          · rcases h3 : parseValueWithAnnos BRACE_END n (startN VALUE st2) with ⟨r3, st3⟩
            have e3 := ihVWA BRACE_END (startN VALUE st2) (jinv_startN VALUE st2 e2.1)
            rw [h3] at e3; dsimp only at e3
            have e3' : JInv st3 ∧ Mono st st3 := ⟨e3.1, Mono.trans e2.2 e3.2⟩
            cases r3 <;> dsimp only
            · exact jm_finishN e3'
            · exact jm_finishN e3'
            · exact jm_finishN e3'
          · exact e2
          · exact e2
        · exact jm_finishN e1'
        · exact jm_finishN e1'
      -- parseValue
      · intro st hj
        rw [parseValue.eq_def]; dsimp only
        rcases h1 : mustPeekToken st with ⟨t?, st1⟩
        have e1 := jm_mustPeek ⟨hj, Mono.rfl st⟩; rw [h1] at e1; dsimp only at e1
        cases t? with
        | none => exact e1
        | some t =>
            have hc : st1.current = some t := mustPeek_some_current st t st1 h1
            dsimp only
            cases t.kind <;> dsimp only <;>
              first
                | (rcases h2 : parseObject n (startN OBJECT st1) with ⟨r2, st2⟩
                   have e2 := ihObj (startN OBJECT st1) (jinv_startN OBJECT st1 e1.1)
                   rw [h2] at e2; dsimp only at e2
                   dsimp only
                   exact jm_finishN ⟨e2.1, Mono.trans e1.2 e2.2⟩)
                | (rcases h2 : parseArray n (startN ARRAY st1) with ⟨r2, st2⟩
                   have e2 := ihArr (startN ARRAY st1) (jinv_startN ARRAY st1 e1.1)
                   rw [h2] at e2; dsimp only at e2
                   dsimp only
                   exact jm_finishN ⟨e2.1, Mono.trans e1.2 e2.2⟩)
                | (rw [(addPointErrors_spans "invalid character in string" st1.tokenStart
                      (stringErrIdxs t.text) st1).1]
                   exact jm_str2 t (stringErrIdxs t.text) (checkEscape t.text) hc
                     (stringErrIdxs_sorted t.text) (stringErrIdxs_lt t.text)
                     (checkEscape_sorted t.text) (checkEscape_lt t.text) e1)
                | exact jm_str1 t "invalid character in string" (backtickErrIdxs t.text) hc
                    (backtickErrIdxs_sorted t.text) (backtickErrIdxs_lt t.text) e1
                | (split <;>
                     first
                       | exact jm_consumeError _ t hc e1
                       | exact jm_consumeCurrent e1
                       | (split <;>
                            first
                              | exact jm_consumeError _ t hc e1
                              | exact jm_consumeCurrent e1))
                | exact jm_consumeCurrent e1
                | exact jm_consumeError _ t hc e1
      -- parseValueWithAnnos
      · intro k st hj
        rw [parseValueWithAnnos.eq_def]; dsimp only
        rcases h1 : parseValue n st with ⟨r1, st1⟩
        have e1 := ihValue st hj; rw [h1] at e1; dsimp only at e1
        cases r1 <;> dsimp only
        · rcases hp : peekToken st1 with ⟨t?, st2⟩
          have ep0 := jinv_peek st1 e1.1; rw [hp] at ep0; dsimp only at ep0
          have ep : JInv st2 ∧ Mono st st2 := ⟨ep0.1, Mono.trans e1.2 ep0.2⟩
          cases t? with
          | none =>
              dsimp only
              have e2 := ihTail k st1.tokenStart st1.tokenEnd false st2 ep.1 ep0.2.1
              exact ⟨e2.1, Mono.trans ep.2 e2.2⟩
          | some t =>
              dsimp only
              split
              · rcases h2 : consumeCurrent st2 with ⟨r2, st3⟩
                have e2 := jinv_consumeCurrent st2 ep.1
                rw [h2] at e2; dsimp only at e2
                cases r2 <;> dsimp only
                · have e3 := ihTail k st1.tokenStart st1.tokenEnd true st3 e2.1
                    (le_trans ep0.2.1 e2.2.1)
                  exact ⟨e3.1, Mono.trans (Mono.trans ep.2 e2.2) e3.2⟩
                · exact ⟨e2.1, Mono.trans ep.2 e2.2⟩
                · exact ⟨e2.1, Mono.trans ep.2 e2.2⟩
              · have e2 := ihTail k st1.tokenStart st1.tokenEnd false st2 ep.1 ep0.2.1
                exact ⟨e2.1, Mono.trans ep.2 e2.2⟩
        · exact e1
        · exact e1
      -- parseVWATail
      · intro k s0 e0 b st hj hs0
        rw [parseVWATail.eq_def]; dsimp only
        rcases h1 : parseAnnos n st with ⟨r1, st1⟩
        have e1 := ihAnnos st hj; rw [h1] at e1; dsimp only at e1
        cases r1 <;> dsimp only
        · rcases hp : peekToken st1 with ⟨t?, st2⟩
          have ep0 := jinv_peek st1 e1.1; rw [hp] at ep0; dsimp only at ep0
          have ep : JInv st2 ∧ Mono st st2 := ⟨ep0.1, Mono.trans e1.2 ep0.2⟩
          cases t? with
          | none => dsimp only; exact ep
          | some t =>
              dsimp only
              split
              · exact jm_expectComma s0 e0 (le_trans hs0 (le_trans e1.2.1 ep0.2.1)) ep
              · exact ep
        · exact e1
        · exact e1
      -- parseObject
      · intro st hj
        rw [parseObject.eq_def]; dsimp only
        rcases h1 : mustTokenOr BRACE_START "expected \"\x7b\"" st with ⟨r1, st1⟩
        have e1 := jm_mustTokenOr BRACE_START "expected \"\x7b\"" ⟨hj, Mono.rfl st⟩
        rw [h1] at e1; dsimp only at e1
        cases r1 <;> dsimp only
        · rcases h2 : parseAnnos n st1 with ⟨r2, st2⟩
          have e2 := ihAnnos st1 e1.1; rw [h2] at e2; dsimp only at e2
          have e2' : JInv st2 ∧ Mono st st2 := ⟨e2.1, Mono.trans e1.2 e2.2⟩
          cases r2 <;> dsimp only
          · have e3 := ihOLoop st2 e2'.1
            exact ⟨e3.1, Mono.trans e2'.2 e3.2⟩
          · exact e2'
          · exact e2'
        · exact e1
        · exact e1
      -- objectLoop
      · intro st hj
        rw [objectLoop.eq_def]; dsimp only
        rcases h1 : mustPeekToken st with ⟨t?, st1⟩
        have e1 := jm_mustPeek ⟨hj, Mono.rfl st⟩; rw [h1] at e1; dsimp only at e1
        cases t? with
        | none => exact e1
        | some t =>
            have hc : st1.current = some t := mustPeek_some_current st t st1 h1
            dsimp only
            cases t.kind <;> dsimp only <;>
              first
                | exact jm_consumeCurrent e1
                | (rcases h2 : parseAnnos n (addError st1
                      ⟨st1.tokenStart, st1.tokenEnd, "unexpected \"@\""⟩) with ⟨r2, st2⟩
                   have ea := jm_unexpectedAt "unexpected \"@\"" t hc e1
                   have e2 := ihAnnos _ ea.1
                   rw [h2] at e2; dsimp only at e2
                   have e2' : JInv st2 ∧ Mono st st2 := ⟨e2.1, Mono.trans ea.2 e2.2⟩
                   cases r2 <;> dsimp only
                   · have e3 := ihOLoop st2 e2'.1
                     exact ⟨e3.1, Mono.trans e2'.2 e3.2⟩
                   · exact e2'
                   · exact e2')
                | (rcases h2 : parseEntry n (startN ENTRY st1) with ⟨r2, st2⟩
                   have e2 := ihEntry (startN ENTRY st1) (jinv_startN ENTRY st1 e1.1)
                   rw [h2] at e2; dsimp only at e2
                   have e2' : JInv st2 ∧ Mono st st2 := ⟨e2.1, Mono.trans e1.2 e2.2⟩
                   dsimp only
                   have e3 := ihOLoop (finishN st2) (jinv_finishN st2 e2'.1)
                   exact ⟨e3.1, Mono.trans e2'.2 e3.2⟩)
      -- parseArray
      · intro st hj
        rw [parseArray.eq_def]; dsimp only
        rcases h1 : mustTokenOr BRACKET_START "expected \"[\"" st with ⟨r1, st1⟩
        have e1 := jm_mustTokenOr BRACKET_START "expected \"[\"" ⟨hj, Mono.rfl st⟩
        rw [h1] at e1; dsimp only at e1
        cases r1 <;> dsimp only
        · rcases h2 : parseAnnos n st1 with ⟨r2, st2⟩
          have e2 := ihAnnos st1 e1.1; rw [h2] at e2; dsimp only at e2
          dsimp only
          have e3 := ihArrLoop st2 e2.1
          exact ⟨e3.1, Mono.trans (Mono.trans e1.2 e2.2) e3.2⟩
        · exact e1
        · exact e1
      -- arrayLoop
      · intro st hj
        rw [arrayLoop.eq_def]; dsimp only
        rcases h1 : mustPeekToken st with ⟨t?, st1⟩
        have e1 := jm_mustPeek ⟨hj, Mono.rfl st⟩; rw [h1] at e1; dsimp only at e1
        cases t? with
        | none => exact e1
        | some t =>
            have hc : st1.current = some t := mustPeek_some_current st t st1 h1
            dsimp only
            cases t.kind <;> dsimp only <;>
              first
                | exact jm_consumeCurrent e1
                | (rcases h2 : parseAnnos n (addError st1
                      ⟨st1.tokenStart, st1.tokenEnd, "unexpected \"@\""⟩) with ⟨r2, st2⟩
                   have ea := jm_unexpectedAt "unexpected \"@\"" t hc e1
                   have e2 := ihAnnos _ ea.1
                   rw [h2] at e2; dsimp only at e2
                   have e2' : JInv st2 ∧ Mono st st2 := ⟨e2.1, Mono.trans ea.2 e2.2⟩
                   cases r2 <;> dsimp only
                   · have e3 := ihArrLoop st2 e2'.1
                     exact ⟨e3.1, Mono.trans e2'.2 e3.2⟩
                   · exact e2'
                   · exact e2')
                | (rcases h2 : parseValueWithAnnos BRACKET_END n (startN VALUE st1) with ⟨r2, st2⟩
                   have e2 := ihVWA BRACKET_END (startN VALUE st1) (jinv_startN VALUE st1 e1.1)
                   rw [h2] at e2; dsimp only at e2
                   have e2' : JInv st2 ∧ Mono st st2 := ⟨e2.1, Mono.trans e1.2 e2.2⟩
                   dsimp only
                   have e3 := ihArrLoop (finishN st2) (jinv_finishN st2 e2'.1)
                   exact ⟨e3.1, Mono.trans e2'.2 e3.2⟩)
      -- parseKey
      · intro st hj
        rw [parseKey.eq_def]; dsimp only
        rcases h1 : mustPeekToken st with ⟨t?, st1⟩
        have e1 := jm_mustPeek ⟨hj, Mono.rfl st⟩; rw [h1] at e1; dsimp only at e1
        cases t? with
        | none => exact e1
        | some t =>
            have hc : st1.current = some t := mustPeek_some_current st t st1 h1
            dsimp only
            cases t.kind <;> dsimp only <;>
              first
                | exact jm_str1 t "invalid control character in string" (stringErrIdxs t.text) hc
                    (stringErrIdxs_sorted t.text) (stringErrIdxs_lt t.text) e1
                | (split <;>
                     first
                       | exact e1
                       | exact jm_consumeError _ t hc e1
                       | exact jm_consumeCurrent e1
                       | (split <;>
                            first
                              | exact e1
                              | exact jm_consumeError _ t hc e1
                              | exact jm_consumeCurrent e1))
                | exact jm_consumeCurrent e1
                | exact jm_consumeError _ t hc e1

/-- C3 (amended): for every fuel bound and every input, any two errors `e1`
before `e2` in the final parser state satisfy `okPair`: either
`e1.start ≤ e2.start` (document order), or `e2` is the `expect ","` error
(recorded at the saved span of a value that precedes its trailing
annotations, hence possibly at a smaller offset than errors produced inside
those annotations), or `e1`/`e2` are the `invalid character in string` /
`invalid escape sequence` errors of one string token, which are emitted in
two passes over the token and may interleave. The unconditional ordering
claimed by the spec is refuted by the counterexample below. -/
theorem c3_error_order_up_to_exemptions (fuel : Nat) (s : List Char) :
    ((runParser fuel (lex s)).2.errors).Pairwise okPair := by
  unfold runParser
  dsimp only
  rcases h : parseRoot fuel (startN ROOT ⟨lex s, none, 0, 0, [], []⟩) with ⟨r, st⟩
  have hi := (jinv_parseFns fuel).1 (startN ROOT ⟨lex s, none, 0, 0, [], []⟩)
    ⟨⟨List.Pairwise.nil, by intro e he; simp [startN] at he, le_rfl⟩,
     by intro t ht; simp [startN] at ht⟩
  rw [h] at hi
  dsimp only at hi
  exact hi.1.1.1

/-- C3 counterexample: on `[1 @k("\q") 2]` the parser surfaces the
`invalid escape sequence` error at offset 7 *before* the `expect ","` error
whose range `1..2` is that of the value `1`, so errors are not in
nondecreasing start order. -/
theorem c3_cex :
    (runParser 40 (lex "[1 @k(\"\\q\") 2]".data)).2.errors =
      [⟨7, 7, "invalid escape sequence"⟩, ⟨1, 2, "expect \",\""⟩] ∧
    ¬ (7 : Nat) ≤ 1 :=
  ⟨rfl, by decide⟩
